import Mathlib

/-!
# Verification of the RFP RAG pipeline

A shallow embedding of the backend of the RFP answering system
(`rfp_system`), covering:

* `services/caching.py` — question normalization and the answer cache,
* `services/vector_store.py` — similarity search over a vector collection,
* `services/generation.py` — confidence-marker parsing and stripping,
* `services/rag_pipeline.py` — document ingestion and answer generation,
* `tasks.py` — the asynchronous job state machine.

Python strings are modelled as lists of Unicode code points (`Str`); the
ASCII fragments of `str.lower`, `str.strip`, `str.split` are modelled
exactly.  Floating point quantities (distances, similarities, confidence
scores) are modelled as exact rationals.  Database rows are explicit
structures and database writes are explicit state passing; every
`TaskStatus.save()` is recorded as a snapshot in a trace.  External calls
(text extraction, embedding, the vector backend, the generation API) are
parameters of the model: each is an `Except`-valued outcome supplied by an
environment, so that every theorem quantifies over all possible outcomes
of the outside world.
-/

/-- A Python string, as its list of Unicode code points. -/
abbrev Str := List Nat

namespace Caching

/-- Python whitespace (the ASCII fragment of `str.isspace`, which is what
`str.strip`/`str.split` delimit on): space, tab, newline, carriage return,
vertical tab, form feed. -/
def pyIsSpace (c : Nat) : Bool :=
  c = 32 || c = 9 || c = 10 || c = 13 || c = 11 || c = 12

/-- `str.lower` on one character (ASCII fragment): `A`..`Z` map to
`a`..`z`, everything else is fixed. -/
def pyLowerChar (c : Nat) : Nat :=
  if 65 ≤ c ∧ c ≤ 90 then c + 32 else c

/-- `str.lower`. -/
def pyLower (s : Str) : Str := s.map pyLowerChar

/-- `str.lstrip()` (no argument): drop leading whitespace. -/
def lstripWS (s : Str) : Str := s.dropWhile pyIsSpace

/-- `str.rstrip()` (no argument): drop trailing whitespace. -/
def rstripWS (s : Str) : Str := (s.reverse.dropWhile pyIsSpace).reverse

/-- `str.strip()` (no argument). -/
def pyStrip (s : Str) : Str := rstripWS (lstripWS s)

/-- `str.rstrip('?')`: drop trailing question marks (code point 63). -/
def rstripQ (s : Str) : Str := (s.reverse.dropWhile (fun c => c = 63)).reverse

/-- Worker for `str.split()`: `acc` holds the reversed characters of the
token currently being read. -/
def splitWSAux : Str → Str → List Str
  | [], acc => if acc = [] then [] else [acc.reverse]
  | c :: cs, acc =>
    if pyIsSpace c then
      if acc = [] then splitWSAux cs [] else acc.reverse :: splitWSAux cs []
    else splitWSAux cs (c :: acc)

/-- `str.split()` (no argument): the maximal runs of non-whitespace
characters, in order; empty runs are discarded. -/
def splitWS (s : Str) : List Str := splitWSAux s []

/-- `' '.join(tokens)`. -/
def joinSpace : List Str → Str
  | [] => []
  | [t] => t
  | t :: ts => t ++ 32 :: joinSpace ts

/-- `normalize_question` from `services/caching.py`:
lowercase and strip, collapse whitespace runs via `' '.join(s.split())`,
then `rstrip('?').rstrip()`. -/
def normalize_question (question_text : Str) : Str :=
  let normalized := pyStrip (pyLower question_text)
  let normalized := joinSpace (splitWS normalized)
  rstripWS (rstripQ normalized)

/-- A well-formed token of `str.split()`: nonempty and whitespace-free. -/
def goodTok (t : Str) : Prop := t ≠ [] ∧ ∀ c ∈ t, pyIsSpace c = false

lemma splitWSAux_nil (acc : Str) :
    splitWSAux [] acc = if acc = [] then [] else [acc.reverse] := rfl

lemma splitWSAux_cons_nonws (c : Nat) (cs acc : Str) (hc : pyIsSpace c = false) :
    splitWSAux (c :: cs) acc = splitWSAux cs (c :: acc) := by
  simp [splitWSAux, hc]

lemma splitWSAux_cons_ws (c : Nat) (cs acc : Str) (hc : pyIsSpace c = true) :
    splitWSAux (c :: cs) acc =
      if acc = [] then splitWSAux cs [] else acc.reverse :: splitWSAux cs [] := by
  simp [splitWSAux, hc]

lemma mem_of_mem_dropWhile {p : Nat → Bool} {c : Nat} :
    ∀ {s : Str}, c ∈ s.dropWhile p → c ∈ s := by
  intro s
  induction s with
  | nil => simp [List.dropWhile]
  | cons a s ih =>
    simp only [List.dropWhile]
    split
    · intro h; exact List.mem_cons_of_mem _ (ih h)
    · exact fun h => h

lemma mem_of_mem_lstripWS {c : Nat} {s : Str} (h : c ∈ lstripWS s) : c ∈ s :=
  mem_of_mem_dropWhile h

lemma mem_of_mem_rstripWS {c : Nat} {s : Str} (h : c ∈ rstripWS s) : c ∈ s := by
  unfold rstripWS at h
  rw [List.mem_reverse] at h
  exact (List.mem_reverse).1 (mem_of_mem_dropWhile h)

lemma mem_of_mem_rstripQ {c : Nat} {s : Str} (h : c ∈ rstripQ s) : c ∈ s := by
  unfold rstripQ at h
  rw [List.mem_reverse] at h
  exact (List.mem_reverse).1 (mem_of_mem_dropWhile h)

lemma mem_of_mem_pyStrip {c : Nat} {s : Str} (h : c ∈ pyStrip s) : c ∈ s :=
  mem_of_mem_lstripWS (mem_of_mem_rstripWS h)

lemma pyLowerChar_idem (c : Nat) : pyLowerChar (pyLowerChar c) = pyLowerChar c := by
  unfold pyLowerChar
  split
  · rw [if_neg (by omega)]
  · rfl

/-- Every token of `splitWSAux` is nonempty, whitespace-free, and drawn
from the input (or the accumulator). -/
lemma splitWSAux_good (s : Str) :
    ∀ acc : Str, (∀ c ∈ acc, pyIsSpace c = false) →
      ∀ t ∈ splitWSAux s acc, goodTok t ∧ ∀ c ∈ t, c ∈ s ∨ c ∈ acc := by
  induction s with
  | nil =>
    intro acc hacc t ht
    unfold splitWSAux at ht
    split at ht
    · simp at ht
    · next hne =>
      simp only [List.mem_singleton] at ht
      subst ht
      refine ⟨⟨by simpa using hne, ?_⟩, ?_⟩
      · intro c hc; exact hacc c (List.mem_reverse.1 hc)
      · intro c hc; exact Or.inr (List.mem_reverse.1 hc)
  | cons a s ih =>
    intro acc hacc t ht
    unfold splitWSAux at ht
    split at ht
    · next hsp =>
      split at ht
      · next hemp =>
        rcases ih [] (by simp) t ht with ⟨hg, hsub⟩
        refine ⟨hg, fun c hc => ?_⟩
        rcases hsub c hc with h | h
        · exact Or.inl (List.mem_cons_of_mem _ h)
        · simp at h
      · next hemp =>
        rcases List.mem_cons.1 ht with rfl | ht'
        · refine ⟨⟨by simpa using hemp, ?_⟩, ?_⟩
          · intro c hc; exact hacc c (List.mem_reverse.1 hc)
          · intro c hc; exact Or.inr (List.mem_reverse.1 hc)
        · rcases ih [] (by simp) t ht' with ⟨hg, hsub⟩
          refine ⟨hg, fun c hc => ?_⟩
          rcases hsub c hc with h | h
          · exact Or.inl (List.mem_cons_of_mem _ h)
          · simp at h
    · next hsp =>
      have hacc' : ∀ c ∈ a :: acc, pyIsSpace c = false := by
        intro c hc
        rcases List.mem_cons.1 hc with rfl | hc'
        · exact Bool.eq_false_iff.2 (fun h => hsp h)
        · exact hacc c hc'
      rcases ih (a :: acc) hacc' t ht with ⟨hg, hsub⟩
      refine ⟨hg, fun c hc => ?_⟩
      rcases hsub c hc with h | h
      · exact Or.inl (List.mem_cons_of_mem _ h)
      · rcases List.mem_cons.1 h with rfl | hc'
        · exact Or.inl (List.mem_cons_self _ _)
        · exact Or.inr hc'

lemma splitWS_good (s : Str) : ∀ t ∈ splitWS s, goodTok t :=
  fun t ht => (splitWSAux_good s [] (by simp) t ht).1

lemma splitWS_subset (s : Str) : ∀ t ∈ splitWS s, ∀ c ∈ t, c ∈ s := by
  intro t ht c hc
  rcases (splitWSAux_good s [] (by simp) t ht).2 c hc with h | h
  · exact h
  · simp at h

/-- Reading a whitespace-free block just extends the accumulator. -/
lemma splitWSAux_nonws (t : Str) (ht : ∀ c ∈ t, pyIsSpace c = false) :
    ∀ (rest acc : Str),
      splitWSAux (t ++ rest) acc = splitWSAux rest (t.reverse ++ acc) := by
  induction t with
  | nil => intro rest acc; simp
  | cons c cs ih =>
    intro rest acc
    have hc : pyIsSpace c = false := ht c (List.mem_cons_self _ _)
    rw [List.cons_append, splitWSAux_cons_nonws c (cs ++ rest) acc hc,
      ih (fun x hx => ht x (List.mem_cons_of_mem _ hx)) rest (c :: acc)]
    simp

lemma joinSpace_snoc (ts : List Str) (l : Str) (h : ts ≠ []) :
    joinSpace (ts ++ [l]) = joinSpace ts ++ 32 :: l := by
  induction ts with
  | nil => exact absurd rfl h
  | cons t ts ih =>
    cases ts with
    | nil => rfl
    | cons t2 ts2 =>
      have step : joinSpace ((t :: t2 :: ts2) ++ [l]) =
          t ++ 32 :: joinSpace ((t2 :: ts2) ++ [l]) := rfl
      rw [step, ih (by simp)]
      simp [joinSpace, List.append_assoc]

/-- `str.split()` is a left inverse of `' '.join` on well-formed tokens. -/
lemma splitWS_joinSpace (ts : List Str) (h : ∀ t ∈ ts, goodTok t) :
    splitWS (joinSpace ts) = ts := by
  induction ts with
  | nil => rfl
  | cons t ts ih =>
    have htg := h t (List.mem_cons_self _ _)
    cases ts with
    | nil =>
      show splitWSAux (joinSpace [t]) [] = [t]
      have hj : joinSpace [t] = t ++ [] := by simp [joinSpace]
      rw [hj, splitWSAux_nonws t htg.2 [] [], splitWSAux_nil,
        if_neg (by simp [htg.1])]
      simp
    | cons t2 ts2 =>
      show splitWSAux (joinSpace (t :: t2 :: ts2)) [] = t :: t2 :: ts2
      have hj : joinSpace (t :: t2 :: ts2) = t ++ 32 :: joinSpace (t2 :: ts2) := rfl
      rw [hj, splitWSAux_nonws t htg.2 (32 :: joinSpace (t2 :: ts2)) [],
        splitWSAux_cons_ws 32 (joinSpace (t2 :: ts2)) (t.reverse ++ []) rfl]
      rw [if_neg (by simp [htg.1])]
      simp only [List.append_nil, List.reverse_reverse]
      congr 1
      exact ih (fun u hu => h u (List.mem_cons_of_mem _ hu))

lemma dropWhile_append_of_exists {p : Nat → Bool} (a b : Str)
    (h : ∃ c ∈ a, p c = false) :
    (a ++ b).dropWhile p = a.dropWhile p ++ b := by
  induction a with
  | nil => simp at h
  | cons c cs ih =>
    cases hp : p c with
    | false => simp [List.cons_append, List.dropWhile, hp]
    | true =>
      simp only [List.cons_append, List.dropWhile, hp]
      apply ih
      rcases h with ⟨d, hd, hdp⟩
      rcases List.mem_cons.1 hd with rfl | hd'
      · rw [hp] at hdp; exact absurd hdp (by simp)
      · exact ⟨d, hd', hdp⟩

lemma dropWhile_append_of_all {p : Nat → Bool} (a b : Str)
    (h : ∀ c ∈ a, p c = true) :
    (a ++ b).dropWhile p = b.dropWhile p := by
  induction a with
  | nil => simp
  | cons c cs ih =>
    simp only [List.cons_append, List.dropWhile, h c (List.mem_cons_self _ _)]
    exact ih (fun d hd => h d (List.mem_cons_of_mem _ hd))

/-- `rstrip()` fixes a string whose last character is not whitespace. -/
lemma rstripWS_snoc (y : Str) (c : Nat) (hc : pyIsSpace c = false) :
    rstripWS (y ++ [c]) = y ++ [c] := by
  unfold rstripWS
  rw [List.reverse_append]
  simp only [List.reverse_singleton, List.singleton_append, List.dropWhile, hc]
  simp

/-- `rstrip('?')` fixes a string whose last character is not `?`. -/
lemma rstripQ_snoc (y : Str) (c : Nat) (hc : c ≠ 63) :
    rstripQ (y ++ [c]) = y ++ [c] := by
  unfold rstripQ
  rw [List.reverse_append]
  simp [List.dropWhile, hc]

lemma eq_nil_or_snoc {α : Type} (l : List α) : l = [] ∨ ∃ L b, l = L ++ [b] := by
  rcases List.eq_nil_or_concat l with h | ⟨L, b, h⟩
  · exact Or.inl h
  · exact Or.inr ⟨L, b, by simpa [List.concat_eq_append] using h⟩

lemma joinSpace_cons₂ (u v : Str) (ts : List Str) :
    joinSpace (u :: v :: ts) = u ++ 32 :: joinSpace (v :: ts) := rfl

lemma head_dropWhile_false {p : Nat → Bool} :
    ∀ {s : Str} {d : Nat} {r : Str}, s.dropWhile p = d :: r → p d = false := by
  intro s
  induction s with
  | nil => intro d r h; simp [List.dropWhile] at h
  | cons a s ih =>
    intro d r h
    rw [List.dropWhile] at h
    cases hp : p a with
    | true => rw [hp] at h; exact ih h
    | false => rw [hp] at h; simp at h; rw [← h.1]; exact hp

lemma mem_joinSpace {c : Nat} :
    ∀ {ts : List Str}, c ∈ joinSpace ts → (∃ u ∈ ts, c ∈ u) ∨ c = 32 := by
  intro ts
  induction ts with
  | nil => intro h; simp [joinSpace] at h
  | cons u ts ih =>
    cases ts with
    | nil =>
      intro h
      exact Or.inl ⟨u, List.mem_cons_self _ _, h⟩
    | cons v ts2 =>
      intro h
      rcases List.mem_append.1 h with h1 | h1
      · exact Or.inl ⟨u, List.mem_cons_self _ _, h1⟩
      · rcases List.mem_cons.1 h1 with rfl | h2
        · exact Or.inr rfl
        · rcases ih h2 with ⟨w, hw, hcw⟩ | h3
          · exact Or.inl ⟨w, List.mem_cons_of_mem _ hw, hcw⟩
          · exact Or.inr h3

lemma pyLower_eq_self {s : Str} (h : ∀ c ∈ s, pyLowerChar c = c) :
    pyLower s = s := by
  unfold pyLower
  rw [List.map_congr_left h]
  simp

lemma mem_pyLower_fixed {c : Nat} {s : Str} (h : c ∈ pyLower s) :
    pyLowerChar c = c := by
  rcases List.mem_map.1 h with ⟨a, _, rfl⟩
  exact pyLowerChar_idem a

/-- A nonempty join of good tokens ends in a non-whitespace character. -/
lemma joinSpace_ends_nonws (ts : List Str) (h : ∀ u ∈ ts, goodTok u)
    (hne : ts ≠ []) :
    ∃ y c, joinSpace ts = y ++ [c] ∧ pyIsSpace c = false := by
  rcases eq_nil_or_snoc ts with rfl | ⟨ts₁, m, rfl⟩
  · exact absurd rfl hne
  · have hm : goodTok m := h m (by simp)
    rcases eq_nil_or_snoc m with rfl | ⟨m', d, rfl⟩
    · exact absurd rfl hm.1
    · have hd : pyIsSpace d = false := hm.2 d (by simp)
      cases ts₁ with
      | nil => exact ⟨m', d, by simp [joinSpace], hd⟩
      | cons w ws =>
        refine ⟨joinSpace (w :: ws) ++ 32 :: m', d, ?_, hd⟩
        rw [joinSpace_snoc _ _ (by simp)]
        simp

lemma lstripWS_join_good (ts : List Str) (h : ∀ u ∈ ts, goodTok u) :
    lstripWS (joinSpace ts) = joinSpace ts := by
  cases ts with
  | nil => rfl
  | cons u ts2 =>
    have hu : goodTok u := h u (List.mem_cons_self _ _)
    rcases List.exists_cons_of_ne_nil hu.1 with ⟨c₀, u', rfl⟩
    have hc₀ : pyIsSpace c₀ = false := hu.2 c₀ (List.mem_cons_self _ _)
    cases ts2 with
    | nil => show lstripWS (c₀ :: u') = c₀ :: u'; simp [lstripWS, List.dropWhile, hc₀]
    | cons v ts3 =>
      rw [joinSpace_cons₂]
      show lstripWS ((c₀ :: u') ++ 32 :: joinSpace (v :: ts3)) = _
      simp [lstripWS, List.dropWhile, hc₀]

lemma rstripWS_join_good (ts : List Str) (h : ∀ u ∈ ts, goodTok u) :
    rstripWS (joinSpace ts) = joinSpace ts := by
  cases hts : ts with
  | nil => rfl
  | cons u ts2 =>
    rcases joinSpace_ends_nonws ts h (by simp [hts]) with ⟨y, c, hyc, hc⟩
    rw [← hts, hyc, rstripWS_snoc y c hc]

/-- Dropping the batch of trailing question marks, then trailing
whitespace, turns a join of good tokens into a join of good tokens: the
last token loses its trailing `?` run and is removed entirely if nothing
of it remains. -/
lemma rstrip_join (ts : List Str) (h : ∀ t ∈ ts, goodTok t) :
    ∃ ts' : List Str, (∀ t ∈ ts', goodTok t) ∧
      rstripWS (rstripQ (joinSpace ts)) = joinSpace ts' ∧
      ∀ t ∈ ts', ∀ c ∈ t, ∃ u ∈ ts, c ∈ u := by
  rcases eq_nil_or_snoc ts with rfl | ⟨ts₀, l, rfl⟩
  · exact ⟨[], by simp, rfl, by simp⟩
  have hl : goodTok l := h l (by simp)
  by_cases hlq : (l.reverse.dropWhile (fun c => c = 63)) = []
  · -- the last token is entirely question marks: it disappears
    have hall : ∀ c ∈ l.reverse, (fun c => decide (c = 63)) c = true :=
      List.dropWhile_eq_nil_iff.1 hlq
    refine ⟨ts₀, fun t ht => h t (List.mem_append_left _ ht), ?_,
      fun t ht c hc => ⟨t, List.mem_append_left _ ht, hc⟩⟩
    by_cases hts₀ : ts₀ = []
    · subst hts₀
      simp only [List.nil_append]
      show rstripWS (rstripQ (joinSpace [l])) = joinSpace []
      have hq : rstripQ (joinSpace [l]) = [] := by
        show (l.reverse.dropWhile (fun c => c = 63)).reverse = []
        rw [hlq]; rfl
      rw [hq]; rfl
    · rw [joinSpace_snoc ts₀ l hts₀]
      have h1 : rstripQ (joinSpace ts₀ ++ 32 :: l) = joinSpace ts₀ ++ [32] := by
        unfold rstripQ
        rw [List.reverse_append, List.reverse_cons,
          List.append_assoc, dropWhile_append_of_all _ _ hall]
        show (([32] ++ (joinSpace ts₀).reverse).dropWhile fun c => c = 63).reverse = _
        simp [List.dropWhile]
      rw [h1]
      rcases joinSpace_ends_nonws ts₀ (fun t ht => h t (List.mem_append_left _ ht))
        hts₀ with ⟨y, c, hyc, hc⟩
      rw [hyc]
      unfold rstripWS
      rw [List.append_assoc, List.reverse_append]
      show ((([c] ++ [32]).reverse ++ y.reverse).dropWhile pyIsSpace).reverse = _
      have h32 : pyIsSpace 32 = true := rfl
      rw [show ([c] ++ [32] : Str).reverse ++ y.reverse = 32 :: c :: y.reverse by simp,
        List.dropWhile_cons_of_pos h32, List.dropWhile_cons_of_neg (by simp [hc])]
      simp
  · -- the last token keeps a nonempty remainder after rstrip('?')
    rcases hrest : l.reverse.dropWhile (fun c => c = 63) with _ | ⟨d, r⟩
    · exact absurd hrest hlq
    have hd63 : (decide (d = 63)) = false := head_dropWhile_false hrest
    have hdl : d ∈ l := by
      have : d ∈ l.reverse.dropWhile (fun c => c = 63) := by
        rw [hrest]; exact List.mem_cons_self _ _
      exact List.mem_reverse.1 (mem_of_mem_dropWhile this)
    have hdws : pyIsSpace d = false := hl.2 d hdl
    set lq : Str := (d :: r).reverse with hlqdef
    have hlq_subset : ∀ c ∈ lq, c ∈ l := by
      intro c hc
      rw [hlqdef, List.mem_reverse, ← hrest] at hc
      exact List.mem_reverse.1 (mem_of_mem_dropWhile hc)
    have hlq_good : goodTok lq := by
      refine ⟨by simp [hlqdef], fun c hc => hl.2 c (hlq_subset c hc)⟩
    have hlq_last : lq = r.reverse ++ [d] := by simp [hlqdef]
    refine ⟨ts₀ ++ [lq], ?_, ?_, ?_⟩
    · intro t ht
      rcases List.mem_append.1 ht with ht' | ht'
      · exact h t (List.mem_append_left _ ht')
      · rw [List.mem_singleton.1 ht']; exact hlq_good
    · cases hts₀ : ts₀ with
      | nil =>
        simp only [List.nil_append]
        show rstripWS (rstripQ (joinSpace [l])) = joinSpace [lq]
        have h1 : rstripQ (joinSpace [l]) = lq := by
          show (l.reverse.dropWhile (fun c => c = 63)).reverse = lq
          rw [hrest, hlqdef]
        rw [h1]
        show rstripWS (joinSpace [lq]) = joinSpace [lq]
        exact rstripWS_join_good [lq] (by simpa using hlq_good)
      | cons w ws =>
        rw [← hts₀]
        have hne : ts₀ ≠ [] := by simp [hts₀]
        rw [joinSpace_snoc ts₀ l hne, joinSpace_snoc ts₀ lq hne]
        have h1 : rstripQ (joinSpace ts₀ ++ 32 :: l) = joinSpace ts₀ ++ 32 :: lq := by
          unfold rstripQ
          rw [List.reverse_append, List.reverse_cons, List.append_assoc,
            dropWhile_append_of_exists _ _ ⟨d, List.mem_reverse.2 hdl, hd63⟩,
            hrest]
          simp [hlqdef]
        rw [h1, show joinSpace ts₀ ++ 32 :: lq =
          (joinSpace ts₀ ++ 32 :: r.reverse) ++ [d] by simp [hlq_last],
          rstripWS_snoc _ d hdws]
    · intro t ht c hc
      rcases List.mem_append.1 ht with ht' | ht'
      · exact ⟨t, List.mem_append_left _ ht', hc⟩
      · rw [List.mem_singleton.1 ht'] at hc
        exact ⟨l, by simp, hlq_subset c hc⟩

/-- Shape of `normalize_question`: a space-join of nonempty,
whitespace-free, lowercase-fixed tokens. -/
lemma normalize_question_shape (t : Str) :
    ∃ ts' : List Str, (∀ u ∈ ts', goodTok u) ∧
      normalize_question t = joinSpace ts' ∧
      ∀ u ∈ ts', ∀ c ∈ u, pyLowerChar c = c := by
  have hgood := splitWS_good (pyStrip (pyLower t))
  obtain ⟨ts', h1, h2, h3⟩ := rstrip_join (splitWS (pyStrip (pyLower t))) hgood
  refine ⟨ts', h1, h2, ?_⟩
  intro u hu c hc
  obtain ⟨v, hv, hcv⟩ := h3 u hu c hc
  exact mem_pyLower_fixed
    (mem_of_mem_pyStrip (splitWS_subset (pyStrip (pyLower t)) v hv c hcv))

lemma normalize_question_def (s : Str) :
    normalize_question s =
      rstripWS (rstripQ (joinSpace (splitWS (pyStrip (pyLower s))))) := rfl

end Caching

/-- **C6** (counterexample).  `normalize_question` is not idempotent on all
inputs: on `"a? ?"` (code points `[97, 63, 32, 63]`) one application yields
`"a?"` — `rstrip('?')` removes only the final `?` and then `rstrip()`
removes the space, exposing a new trailing `?` — and a second application
yields `"a"`. -/
theorem C6_normalize_not_idempotent :
    Caching.normalize_question (Caching.normalize_question [97, 63, 32, 63]) ≠
      Caching.normalize_question [97, 63, 32, 63] := by
  decide

/-- **C6** (amended).  `normalize_question` is idempotent on every input
whose normalized form does not end in `?` (code point 63).  The only
failures of idempotence are inputs such as `"a? ?"` whose single-pass
`rstrip('?').rstrip()` leaves a new trailing question mark. -/
theorem C6_normalize_idempotent_amended (t : Str)
    (h : (Caching.normalize_question t).getLast? ≠ some 63) :
    Caching.normalize_question (Caching.normalize_question t) =
      Caching.normalize_question t := by
  obtain ⟨ts', hgood, hn, hfix⟩ := Caching.normalize_question_shape t
  rw [hn] at h ⊢
  have hfixj : ∀ c ∈ Caching.joinSpace ts', Caching.pyLowerChar c = c := by
    intro c hc
    rcases Caching.mem_joinSpace hc with ⟨u, hu, hcu⟩ | rfl
    · exact hfix u hu c hcu
    · decide
  have hstrip : Caching.pyStrip (Caching.joinSpace ts') = Caching.joinSpace ts' := by
    unfold Caching.pyStrip
    rw [Caching.lstripWS_join_good ts' hgood, Caching.rstripWS_join_good ts' hgood]
  rw [Caching.normalize_question_def, Caching.pyLower_eq_self hfixj, hstrip,
    Caching.splitWS_joinSpace ts' hgood]
  by_cases hne : ts' = []
  · subst hne; rfl
  · rcases Caching.joinSpace_ends_nonws ts' hgood hne with ⟨y, c, hyc, hc⟩
    have hc63 : c ≠ 63 := by
      intro hceq
      rw [hyc, hceq] at h
      exact h (by simp)
    rw [hyc, Caching.rstripQ_snoc y c hc63, Caching.rstripWS_snoc y c hc]

/-- Witness for `C6_normalize_idempotent_amended`: the question `"WHY?"`
(code points `[87, 72, 89, 63]`) normalizes to `"why"`, which has no
trailing question mark, and a second normalization is the identity. -/
theorem C6_normalize_idempotent_amended_witness :
    (Caching.normalize_question [87, 72, 89, 63]).getLast? ≠ some 63 ∧
      Caching.normalize_question (Caching.normalize_question [87, 72, 89, 63]) =
        Caching.normalize_question [87, 72, 89, 63] :=
  ⟨by decide, C6_normalize_idempotent_amended [87, 72, 89, 63] (by decide)⟩

namespace VectorStore

/-- One entry of the ChromaDB collection, carrying the distance the
backend reports between the entry's stored vector and the query
embedding.  The backend's distance metric is not re-modelled: `search`
only consumes the distances the collection returns for the query, so the
model is parametric in them (the claim's hypothesis constrains them to
the metric's documented range `[0, 2]`). -/
structure Entry where
  eid : Str
  doc : Str
  dist : ℚ
  meta : Nat
deriving DecidableEq

instance : IsTotal Entry (fun a b => a.dist ≤ b.dist) :=
  ⟨fun a b => le_total a.dist b.dist⟩

instance : IsTrans Entry (fun a b => a.dist ≤ b.dist) :=
  ⟨fun _ _ _ hab hbc => le_trans hab hbc⟩

/-- `collection.query(query_embeddings=[q], n_results=top_k)`: the
`top_k` nearest entries, in ascending distance order. -/
def query (collection : List Entry) (n_results : Nat) : List Entry :=
  (List.insertionSort (fun a b => a.dist ≤ b.dist) collection).take n_results

/-- Distance-to-similarity conversion used throughout the code base:
`similarity = 1 - (distance / 2)`. -/
def similarity (d : ℚ) : ℚ := 1 - d / 2

/-- `VectorStore.search` from `services/vector_store.py`: query the
collection for the `top_k` nearest entries; when a positive
`similarity_threshold` is given, keep (in order) only the entries whose
similarity `1 - distance/2` is at least the threshold. -/
def search (collection : List Entry) (top_k : Nat)
    (similarity_threshold : ℚ) : List Entry :=
  let results := query collection top_k
  if similarity_threshold > 0 then
    results.filter (fun e => similarity_threshold ≤ similarity e.dist)
  else results

lemma search_sublist_query (collection : List Entry) (top_k : Nat)
    (threshold : ℚ) :
    (search collection top_k threshold).Sublist (query collection top_k) := by
  unfold search
  split
  · exact List.filter_sublist _
  · exact List.Sublist.refl _

lemma mem_query (collection : List Entry) (n : Nat) :
    ∀ e ∈ query collection n, e ∈ collection := by
  intro e he
  unfold query at he
  exact (List.perm_insertionSort (fun a b => a.dist ≤ b.dist) collection).mem_iff.1
    (List.mem_of_mem_take he)

lemma query_sorted (collection : List Entry) (n : Nat) :
    (query collection n).Sorted (fun a b => a.dist ≤ b.dist) :=
  (List.sorted_insertionSort _ collection).sublist (List.take_sublist _ _)

end VectorStore

/-- **C5**.  For every collection state (with all reported distances in
the metric's range `[0, 2]`), requested `top_k` and requested threshold,
`search` returns at most `top_k` entries, in descending order of
similarity `1 - distance/2`, and never returns an entry whose similarity
is strictly below the requested threshold. -/
theorem C5_search_topk_sorted_threshold (collection : List VectorStore.Entry)
    (top_k : Nat) (threshold : ℚ)
    (hd : ∀ e ∈ collection, 0 ≤ e.dist ∧ e.dist ≤ 2) :
    (VectorStore.search collection top_k threshold).length ≤ top_k ∧
    (VectorStore.search collection top_k threshold).Sorted
      (fun a b => VectorStore.similarity b.dist ≤ VectorStore.similarity a.dist) ∧
    ∀ e ∈ VectorStore.search collection top_k threshold,
      threshold ≤ VectorStore.similarity e.dist := by
  refine ⟨?_, ?_, ?_⟩
  · calc (VectorStore.search collection top_k threshold).length
        ≤ (VectorStore.query collection top_k).length :=
          (VectorStore.search_sublist_query collection top_k threshold).length_le
      _ ≤ top_k := List.length_take_le _ _
  · have hs : (VectorStore.search collection top_k threshold).Sorted
        (fun a b => a.dist ≤ b.dist) :=
      (VectorStore.query_sorted collection top_k).sublist
        (VectorStore.search_sublist_query collection top_k threshold)
    refine hs.imp ?_
    intro a b hab
    unfold VectorStore.similarity
    linarith
  · intro e he
    unfold VectorStore.search at he
    split at he
    · next hpos =>
      have := List.of_mem_filter he
      exact of_decide_eq_true this
    · next hpos =>
      have h2 : e.dist ≤ 2 := (hd e (VectorStore.mem_query collection top_k e he)).2
      have ht : threshold ≤ 0 := le_of_not_lt hpos
      unfold VectorStore.similarity
      linarith

/-- Witness for `C5_search_topk_sorted_threshold`: a two-entry collection
with distances `1` and `2` (both in `[0, 2]`), `top_k = 1`, and threshold
`1/2`. -/
theorem C5_search_topk_sorted_threshold_witness :
    (∀ e ∈ [VectorStore.Entry.mk [49] [116] 1 0,
            VectorStore.Entry.mk [50] [117] 2 0], 0 ≤ e.dist ∧ e.dist ≤ 2) ∧
    ((VectorStore.search [VectorStore.Entry.mk [49] [116] 1 0,
            VectorStore.Entry.mk [50] [117] 2 0] 1 (1/2)).length ≤ 1 ∧
    (VectorStore.search [VectorStore.Entry.mk [49] [116] 1 0,
            VectorStore.Entry.mk [50] [117] 2 0] 1 (1/2)).Sorted
      (fun a b => VectorStore.similarity b.dist ≤ VectorStore.similarity a.dist) ∧
    ∀ e ∈ VectorStore.search [VectorStore.Entry.mk [49] [116] 1 0,
            VectorStore.Entry.mk [50] [117] 2 0] 1 (1/2),
      (1 : ℚ)/2 ≤ VectorStore.similarity e.dist) :=
  ⟨by intro e he; fin_cases he <;> exact ⟨by norm_num, by norm_num⟩,
   C5_search_topk_sorted_threshold _ 1 (1/2)
     (by intro e he; fin_cases he <;> exact ⟨by norm_num, by norm_num⟩)⟩

namespace Generation

/-- ASCII digit. -/
def isDigit (c : Nat) : Bool := 48 ≤ c && c ≤ 57

/-- A character the regex number `[0-9]*\.?[0-9]+` can consume:
digit or dot. -/
def isNumChar (c : Nat) : Bool := isDigit c || c = 46

/-- Value of a digit string. -/
def digitsVal (ds : Str) : Nat := ds.foldl (fun acc d => acc * 10 + (d - 48)) 0

/-- The code points of `"confidence:"` (lowercase). -/
def confMarker : Str := [99, 111, 110, 102, 105, 100, 101, 110, 99, 101, 58]

/-- Case-insensitive test for `"CONFIDENCE:"` at the start of `s`
(`re.IGNORECASE` on an ASCII pattern folds case on both sides). -/
def ciMarkerAt (s : Str) : Bool :=
  (s.take 11).map Caching.pyLowerChar = confMarker

/-- The number match `[0-9]*\.?[0-9]+` anchored at the start of `s`, with
the greedy/backtracking semantics of `re`: a maximal digit run, then a
dot followed by at least one digit if available, otherwise the digit run
alone.  Returns the parsed value (`float()` of the matched text, as an
exact rational). -/
def matchNumber (s : Str) : Option ℚ :=
  let d1 := s.takeWhile isDigit
  let s1 := s.dropWhile isDigit
  if s1.head? = some 46 ∧ s1.tail.takeWhile isDigit ≠ [] then
    some ((digitsVal d1 : ℚ) +
      (digitsVal (s1.tail.takeWhile isDigit) : ℚ) /
        (10 : ℚ) ^ (s1.tail.takeWhile isDigit).length)
  else if d1 ≠ [] then some ((digitsVal d1 : ℚ))
  else none

/-- `re.search(r'CONFIDENCE:\s*([0-9]*\.?[0-9]+)', text, re.IGNORECASE)`:
scan left to right for a position bearing the case-insensitive marker
followed (after whitespace) by a number; a marker occurrence whose number
part fails does not stop the scan. -/
def findConfidence : Str → Option ℚ
  | [] => none
  | c :: rest =>
    if ciMarkerAt (c :: rest) then
      match matchNumber (((c :: rest).drop 11).dropWhile Caching.pyIsSpace) with
      | some q => some q
      | none => findConfidence rest
    else findConfidence rest

/-- `AnswerGenerator._parse_confidence`: parse the first marker's number
and clamp it to `[0, 1]`; `None` when no marker with a well-formed number
exists.  (`float()` cannot fail on text matched by the number pattern, so
the `except ValueError` branch is unreachable.) -/
def parse_confidence (answer_text : Str) : Option ℚ :=
  (findConfidence answer_text).map (fun score => min (max score 0) 1)

/-- Does `run` (a string of digits and dots) match `[0-9]*\.?[0-9]+`
exactly: nonempty, at most one dot, and ending in a digit. -/
def validNumRun (run : Str) : Bool :=
  !run.isEmpty && run.countP (fun c => c = 46) ≤ 1 &&
    (match run.getLast? with
     | some c => isDigit c
     | none => false)

/-- Does the whole of `s` match `\n*CONFIDENCE:\s*[0-9]*\.?[0-9]+\s*$`
(the pattern of `_remove_confidence_marker`, `$` included)? -/
def suffixMatches (s : Str) : Bool :=
  let s1 := s.dropWhile (fun c => c = 10)
  ciMarkerAt s1 &&
    (let s2 := (s1.drop 11).dropWhile Caching.pyIsSpace
     let run := s2.takeWhile isNumChar
     validNumRun run && (s2.drop run.length).all Caching.pyIsSpace)

/-- `AnswerGenerator._remove_confidence_marker`:
`re.sub(r'\n*CONFIDENCE:\s*[0-9]*\.?[0-9]+\s*$', '', text, re.IGNORECASE)`.
Because the pattern is anchored at the end, the substitution deletes
everything from the leftmost position whose suffix matches; when no
suffix matches, the text is unchanged. -/
def remove_confidence_marker : Str → Str
  | [] => []
  | c :: rest =>
    if suffixMatches (c :: rest) then []
    else c :: remove_confidence_marker rest

/-- Result of `AnswerGenerator.generate_answer` as far as the response
text is concerned (the prompt build and the external call are the
environment; `raw` is the text of the model response). -/
structure GenOut where
  answer : Str
  confidence_score : Option ℚ
deriving DecidableEq

/-- The post-processing of `AnswerGenerator.generate_answer`
(`services/generation.py` lines 63-86): parse the confidence from the raw
response, strip the trailing marker, `strip()` the result. -/
def generate_answer_post (raw : Str) (include_confidence : Bool) : GenOut :=
  if include_confidence then
    { answer := Caching.pyStrip (remove_confidence_marker raw),
      confidence_score := parse_confidence raw }
  else
    { answer := Caching.pyStrip raw, confidence_score := none }

/-- The value of a well-formed number literal (same computation as
`matchNumber` on the bare literal). -/
def numLitVal (run : Str) : ℚ :=
  let d1 := run.takeWhile isDigit
  let s1 := run.dropWhile isDigit
  if s1.head? = some 46 ∧ s1.tail.takeWhile isDigit ≠ [] then
    (digitsVal d1 : ℚ) +
      (digitsVal (s1.tail.takeWhile isDigit) : ℚ) /
        (10 : ℚ) ^ (s1.tail.takeWhile isDigit).length
  else (digitsVal d1 : ℚ)

/-- Shape of a string matching `[0-9]*\.?[0-9]+` exactly. -/
def IsNumLit (run : Str) : Prop :=
  (run ≠ [] ∧ ∀ c ∈ run, isDigit c = true) ∨
  (∃ d1 d2, run = d1 ++ 46 :: d2 ∧ d2 ≠ [] ∧
    (∀ c ∈ d1, isDigit c = true) ∧ ∀ c ∈ d2, isDigit c = true)

end Generation

namespace Generation

lemma takeWhile_append_of_all {p : Nat → Bool} (a b : Str)
    (h : ∀ c ∈ a, p c = true) :
    (a ++ b).takeWhile p = a ++ b.takeWhile p := by
  induction a with
  | nil => simp
  | cons c cs ih =>
    have hc := h c (List.mem_cons_self _ _)
    simp only [List.cons_append, List.takeWhile_cons, hc, if_true]
    exact congrArg (c :: ·) (ih fun d hd => h d (List.mem_cons_of_mem _ hd))

lemma pyIsSpace_iff (c : Nat) :
    Caching.pyIsSpace c = true ↔
      c = 32 ∨ c = 9 ∨ c = 10 ∨ c = 13 ∨ c = 11 ∨ c = 12 := by
  simp only [Caching.pyIsSpace, Bool.or_eq_true, decide_eq_true_eq]
  omega

lemma isDigit_iff (c : Nat) : isDigit c = true ↔ 48 ≤ c ∧ c ≤ 57 := by
  simp [isDigit]

lemma ws_not_numChar {c : Nat} (h : Caching.pyIsSpace c = true) :
    isNumChar c = false := by
  rw [pyIsSpace_iff] at h
  simp [isNumChar, isDigit]
  omega

lemma ws_not_digit {c : Nat} (h : Caching.pyIsSpace c = true) :
    isDigit c = false := by
  rw [pyIsSpace_iff] at h
  simp [isDigit]
  omega

lemma digit_not_ws {c : Nat} (h : isDigit c = true) :
    Caching.pyIsSpace c = false := by
  rw [isDigit_iff] at h
  simp [Caching.pyIsSpace]
  omega

lemma numChar_not_ws {c : Nat} (h : isNumChar c = true) :
    Caching.pyIsSpace c = false := by
  simp only [isNumChar, Bool.or_eq_true, isDigit_iff, decide_eq_true_eq] at h
  simp [Caching.pyIsSpace]
  omega

lemma IsNumLit.ne_nil {run : Str} (h : IsNumLit run) : run ≠ [] := by
  rcases h with ⟨hne, _⟩ | ⟨d1, d2, rfl, hd2, _, _⟩
  · exact hne
  · simp

lemma IsNumLit.all_numChar {run : Str} (h : IsNumLit run) :
    ∀ c ∈ run, isNumChar c = true := by
  rcases h with ⟨_, hall⟩ | ⟨d1, d2, rfl, _, hall1, hall2⟩
  · intro c hc
    simp [isNumChar, hall c hc]
  · intro c hc
    rcases List.mem_append.1 hc with h1 | h1
    · simp [isNumChar, hall1 c h1]
    · rcases List.mem_cons.1 h1 with rfl | h2
      · simp [isNumChar]
      · simp [isNumChar, hall2 c h2]

lemma validNumRun_eq_true {y : Str} {c : Nat}
    (h2 : (y ++ [c]).countP (fun c => c = 46) ≤ 1)
    (hc : isDigit c = true) :
    validNumRun (y ++ [c]) = true := by
  rw [List.countP_append] at h2
  simp [validNumRun, h2, hc, List.countP_append]

lemma IsNumLit.valid {run : Str} (h : IsNumLit run) :
    validNumRun run = true := by
  rcases h with ⟨hne, hall⟩ | ⟨d1, d2, rfl, hd2, hall1, hall2⟩
  · rcases Caching.eq_nil_or_snoc run with rfl | ⟨y, c, rfl⟩
    · exact absurd rfl hne
    · refine validNumRun_eq_true ?_ (hall c (by simp))
      have : (y ++ [c]).countP (fun c => c = 46) = 0 := by
        rw [List.countP_eq_zero]
        intro a ha
        have := hall a ha
        rw [isDigit_iff] at this
        simp only [decide_eq_true_eq]
        omega
      omega
  · rcases Caching.eq_nil_or_snoc d2 with rfl | ⟨y, c, rfl⟩
    · exact absurd rfl hd2
    · have hshape : d1 ++ 46 :: (y ++ [c]) = (d1 ++ 46 :: y) ++ [c] := by simp
      rw [hshape]
      refine validNumRun_eq_true ?_ (hall2 c (by simp))
      have hd1 : d1.countP (fun c => c = 46) = 0 := by
        rw [List.countP_eq_zero]
        intro a ha
        have := hall1 a ha
        rw [isDigit_iff] at this
        simp only [decide_eq_true_eq]
        omega
      have hy : y.countP (fun c => c = 46) = 0 := by
        rw [List.countP_eq_zero]
        intro a ha
        have := hall2 a (by simp [ha])
        rw [isDigit_iff] at this
        simp only [decide_eq_true_eq]
        omega
      have hcc : c ≠ 46 := by
        have := hall2 c (by simp)
        rw [isDigit_iff] at this
        omega
      simp [List.countP_append, List.countP_cons, hd1, hy, hcc]

end Generation

namespace Generation

lemma takeWhile_all {p : Nat → Bool} (l : Str) (h : ∀ c ∈ l, p c = true) :
    l.takeWhile p = l := by
  have := takeWhile_append_of_all l [] h
  simpa using this

lemma dropWhile_all {p : Nat → Bool} (l : Str) (h : ∀ c ∈ l, p c = true) :
    l.dropWhile p = [] := by
  have := Caching.dropWhile_append_of_all l [] h
  simpa using this

lemma ws_ne_dot {c : Nat} (h : Caching.pyIsSpace c = true) : c ≠ 46 := by
  rw [pyIsSpace_iff] at h
  omega

lemma ciMarkerAt_nil : ciMarkerAt [] = false := by decide

lemma findConfidence_cons (c : Nat) (r : Str) :
    findConfidence (c :: r) =
      if ciMarkerAt (c :: r) then
        match matchNumber (((c :: r).drop 11).dropWhile Caching.pyIsSpace) with
        | some q => some q
        | none => findConfidence r
      else findConfidence r := rfl

lemma findConfidence_append (x y : Str)
    (hx : ∀ q, q < x.length → ciMarkerAt (x.drop q ++ y) = false) :
    findConfidence (x ++ y) = findConfidence y := by
  induction x with
  | nil => simp
  | cons c cs ih =>
    rw [List.cons_append, findConfidence_cons]
    have h0 : ciMarkerAt (c :: (cs ++ y)) = false := by
      simpa using hx 0 (by simp)
    rw [h0]
    simp only [Bool.false_eq_true, if_false]
    exact ih fun q hq => by
      simpa using hx (q + 1) (by simpa using Nat.succ_lt_succ hq)

lemma remove_cons (c : Nat) (r : Str) :
    remove_confidence_marker (c :: r) =
      if suffixMatches (c :: r) then [] else c :: remove_confidence_marker r := rfl

lemma remove_append_of_no_match (x y : Str)
    (hx : ∀ q, q < x.length → suffixMatches (x.drop q ++ y) = false)
    (hy : suffixMatches y = true) :
    remove_confidence_marker (x ++ y) = x := by
  induction x with
  | nil =>
    cases y with
    | nil => exact absurd hy (by decide)
    | cons c r =>
      simp only [List.nil_append, remove_cons, hy, if_true]
  | cons c cs ih =>
    rw [List.cons_append, remove_cons]
    have h0 : suffixMatches (c :: (cs ++ y)) = false := by
      simpa using hx 0 (by simp)
    rw [h0]
    simp only [Bool.false_eq_true, if_false]
    exact congrArg (c :: ·) (ih fun q hq => by
      simpa using hx (q + 1) (by simpa using Nat.succ_lt_succ hq))

lemma suffixMatches_def (s : Str) :
    suffixMatches s =
      (ciMarkerAt (s.dropWhile (fun c => c = 10)) &&
        (validNumRun ((((s.dropWhile (fun c => c = 10)).drop 11).dropWhile
            Caching.pyIsSpace).takeWhile isNumChar) &&
          ((((s.dropWhile (fun c => c = 10)).drop 11).dropWhile
              Caching.pyIsSpace).drop
            ((((s.dropWhile (fun c => c = 10)).drop 11).dropWhile
              Caching.pyIsSpace).takeWhile isNumChar).length).all
            Caching.pyIsSpace)) := rfl

lemma suffixMatches_false_of_marker_false {s : Str}
    (h : ciMarkerAt (s.dropWhile (fun c => c = 10)) = false) :
    suffixMatches s = false := by
  rw [suffixMatches_def, h, Bool.false_and]

lemma marker_length {mm : Str} (hm : mm.map Caching.pyLowerChar = confMarker) :
    mm.length = 11 := by
  have := congrArg List.length hm
  simpa [confMarker] using this

lemma marker_head {mm : Str} (hm : mm.map Caching.pyLowerChar = confMarker) :
    ∃ c0 mr, mm = c0 :: mr ∧ c0 ≠ 10 := by
  cases mm with
  | nil => simp [confMarker] at hm
  | cons c0 mr =>
    refine ⟨c0, mr, rfl, ?_⟩
    intro hc0
    subst hc0
    simp only [List.map_cons, confMarker] at hm
    have h99 : Caching.pyLowerChar 10 = 99 := (List.cons_eq_cons.1 hm).1
    simp [Caching.pyLowerChar] at h99

lemma ciMarkerAt_marker (mm z : Str)
    (hm : mm.map Caching.pyLowerChar = confMarker) :
    ciMarkerAt (mm ++ z) = true := by
  unfold ciMarkerAt
  rw [show (11 : Nat) = mm.length from (marker_length hm).symm, List.take_left]
  simp [hm]

lemma drop11_marker (mm z : Str)
    (hm : mm.map Caching.pyLowerChar = confMarker) :
    (mm ++ z).drop 11 = z := by
  rw [show (11 : Nat) = mm.length from (marker_length hm).symm, List.drop_left]

lemma IsNumLit.head_numChar {run : Str} (h : IsNumLit run) :
    ∃ n0 nr, run = n0 :: nr ∧ isNumChar n0 = true := by
  cases run with
  | nil => exact absurd rfl h.ne_nil
  | cons n0 nr => exact ⟨n0, nr, rfl, h.all_numChar n0 (List.mem_cons_self _ _)⟩

lemma dropWS_to_lit (ws numLit ws2 : Str)
    (hws : ∀ c ∈ ws, Caching.pyIsSpace c = true)
    (hlit : IsNumLit numLit) :
    (ws ++ (numLit ++ ws2)).dropWhile Caching.pyIsSpace = numLit ++ ws2 := by
  rw [Caching.dropWhile_append_of_all _ _ hws]
  obtain ⟨n0, nr, rfl, hn0⟩ := hlit.head_numChar
  rw [List.cons_append, List.dropWhile_cons_of_neg]
  simp [numChar_not_ws hn0]

lemma take_numRun (numLit ws2 : Str) (hlit : IsNumLit numLit)
    (hws2 : ∀ c ∈ ws2, Caching.pyIsSpace c = true) :
    (numLit ++ ws2).takeWhile isNumChar = numLit := by
  rw [takeWhile_append_of_all _ _ hlit.all_numChar]
  cases ws2 with
  | nil => simp
  | cons w wr =>
    rw [List.takeWhile_cons_of_neg]
    · simp
    · simp [ws_not_numChar (hws2 w (List.mem_cons_self _ _))]

lemma suffixMatches_marker_tail (a : Nat) (mm ws numLit ws2 : Str)
    (hm : mm.map Caching.pyLowerChar = confMarker)
    (hws : ∀ c ∈ ws, Caching.pyIsSpace c = true)
    (hws2 : ∀ c ∈ ws2, Caching.pyIsSpace c = true)
    (hlit : IsNumLit numLit) :
    suffixMatches (List.replicate a 10 ++ (mm ++ (ws ++ (numLit ++ ws2)))) = true := by
  have hdrop10 : (List.replicate a 10 ++
      (mm ++ (ws ++ (numLit ++ ws2)))).dropWhile (fun c => c = 10) =
      mm ++ (ws ++ (numLit ++ ws2)) := by
    rw [Caching.dropWhile_append_of_all]
    · obtain ⟨c0, mr, hmm0, hc0⟩ := marker_head hm
      rw [hmm0, List.cons_append, List.dropWhile_cons_of_neg (by simp [hc0])]
    · intro c hc
      rw [List.eq_of_mem_replicate hc]
      simp
  rw [suffixMatches_def, hdrop10, ciMarkerAt_marker mm _ hm, drop11_marker mm _ hm,
    dropWS_to_lit ws numLit ws2 hws hlit, take_numRun numLit ws2 hlit hws2,
    show (numLit ++ ws2).drop numLit.length = ws2 from List.drop_left _ _]
  simp [hlit.valid, List.all_eq_true.2 hws2]

lemma matchNumber_eq (s : Str) :
    matchNumber s =
      if (s.dropWhile isDigit).head? = some 46 ∧
          (s.dropWhile isDigit).tail.takeWhile isDigit ≠ [] then
        some ((digitsVal (s.takeWhile isDigit) : ℚ) +
          (digitsVal ((s.dropWhile isDigit).tail.takeWhile isDigit) : ℚ) /
            (10 : ℚ) ^ ((s.dropWhile isDigit).tail.takeWhile isDigit).length)
      else if s.takeWhile isDigit ≠ [] then
        some ((digitsVal (s.takeWhile isDigit) : ℚ))
      else none := rfl

lemma numLitVal_eq (s : Str) :
    numLitVal s =
      if (s.dropWhile isDigit).head? = some 46 ∧
          (s.dropWhile isDigit).tail.takeWhile isDigit ≠ [] then
        (digitsVal (s.takeWhile isDigit) : ℚ) +
          (digitsVal ((s.dropWhile isDigit).tail.takeWhile isDigit) : ℚ) /
            (10 : ℚ) ^ ((s.dropWhile isDigit).tail.takeWhile isDigit).length
      else (digitsVal (s.takeWhile isDigit) : ℚ) := rfl

lemma matchNumber_lit_ws (numLit ws2 : Str) (hlit : IsNumLit numLit)
    (hws2 : ∀ c ∈ ws2, Caching.pyIsSpace c = true) :
    matchNumber (numLit ++ ws2) = some (numLitVal numLit) := by
  rcases hlit with ⟨hne, hall⟩ | ⟨d1, d2, rfl, hd2, hall1, hall2⟩
  · have htake : (numLit ++ ws2).takeWhile isDigit = numLit := by
      rw [takeWhile_append_of_all _ _ hall]
      cases ws2 with
      | nil => simp
      | cons w wr =>
        rw [List.takeWhile_cons_of_neg (by
          simp [ws_not_digit (hws2 w (List.mem_cons_self _ _))])]
        simp
    have hdrop : (numLit ++ ws2).dropWhile isDigit = ws2 := by
      rw [Caching.dropWhile_append_of_all _ _ hall]
      cases ws2 with
      | nil => rfl
      | cons w wr =>
        rw [List.dropWhile_cons_of_neg (by
          simp [ws_not_digit (hws2 w (List.mem_cons_self _ _))])]
    have hcond : ¬ ((ws2.head? = some 46) ∧ ws2.tail.takeWhile isDigit ≠ []) := by
      rintro ⟨h46, -⟩
      cases ws2 with
      | nil => simp at h46
      | cons w wr =>
        simp only [List.head?_cons, Option.some.injEq] at h46
        exact ws_ne_dot (hws2 w (List.mem_cons_self _ _)) h46
    rw [matchNumber_eq, htake, hdrop, if_neg hcond, if_pos hne,
      numLitVal_eq]
    rw [takeWhile_all numLit hall, dropWhile_all numLit hall]
    rw [if_neg (by simp)]
  · have hd46 : isDigit 46 = false := by decide
    have htake : ((d1 ++ 46 :: d2) ++ ws2).takeWhile isDigit = d1 := by
      rw [List.append_assoc, List.cons_append, takeWhile_append_of_all _ _ hall1,
        List.takeWhile_cons_of_neg (by simp [hd46])]
      simp
    have hdrop : ((d1 ++ 46 :: d2) ++ ws2).dropWhile isDigit =
        46 :: (d2 ++ ws2) := by
      rw [List.append_assoc, List.cons_append,
        Caching.dropWhile_append_of_all _ _ hall1,
        List.dropWhile_cons_of_neg (by simp [hd46])]
    have htake2 : (d2 ++ ws2).takeWhile isDigit = d2 := by
      rw [takeWhile_append_of_all _ _ hall2]
      cases ws2 with
      | nil => simp
      | cons w wr =>
        rw [List.takeWhile_cons_of_neg (by
          simp [ws_not_digit (hws2 w (List.mem_cons_self _ _))])]
        simp
    have htakeA : (d1 ++ 46 :: d2).takeWhile isDigit = d1 := by
      rw [takeWhile_append_of_all _ _ hall1,
        List.takeWhile_cons_of_neg (by simp [hd46])]
      simp
    have hdropA : (d1 ++ 46 :: d2).dropWhile isDigit = 46 :: d2 := by
      rw [Caching.dropWhile_append_of_all _ _ hall1,
        List.dropWhile_cons_of_neg (by simp [hd46])]
    rw [matchNumber_eq, htake, hdrop, numLitVal_eq, htakeA, hdropA]
    have hc1 : ((46 :: (d2 ++ ws2)).head? = some 46 ∧
        (46 :: (d2 ++ ws2)).tail.takeWhile isDigit ≠ []) := by
      refine ⟨rfl, ?_⟩
      simpa [htake2] using hd2
    have hc2 : ((46 :: d2).head? = some 46 ∧
        (46 :: d2).tail.takeWhile isDigit ≠ []) := by
      refine ⟨rfl, ?_⟩
      simpa [takeWhile_all d2 hall2] using hd2
    rw [if_pos hc1, if_pos hc2]
    simp only [List.tail_cons, htake2, takeWhile_all d2 hall2]

end Generation

namespace Generation

lemma dropWhile_eq_drop {p : Nat → Bool} (l : Str) :
    l.dropWhile p = l.drop (l.takeWhile p).length := by
  induction l with
  | nil => rfl
  | cons c cs ih =>
    cases hp : p c
    · simp [List.dropWhile_cons_of_neg, List.takeWhile_cons_of_neg, hp]
    · simp [List.dropWhile_cons_of_pos, List.takeWhile_cons_of_pos, hp, ih]

/-- The scan of `_parse_confidence` over a text of the structured shape
"body, blank lines, marker, whitespace, number, trailing whitespace"
finds the marker's number, provided no earlier position carries the
case-insensitive marker. -/
lemma findConfidence_structured (body : Str) (a : Nat) (mm ws numLit ws2 : Str)
    (hm : mm.map Caching.pyLowerChar = confMarker)
    (hws : ∀ c ∈ ws, Caching.pyIsSpace c = true)
    (hws2 : ∀ c ∈ ws2, Caching.pyIsSpace c = true)
    (hlit : IsNumLit numLit)
    (hNoMarker : ∀ q, q < (body ++ List.replicate a 10).length →
      ciMarkerAt ((body ++ List.replicate a 10).drop q ++
        (mm ++ (ws ++ (numLit ++ ws2)))) = false) :
    findConfidence ((body ++ List.replicate a 10) ++
        (mm ++ (ws ++ (numLit ++ ws2)))) = some (numLitVal numLit) := by
  rw [findConfidence_append _ _ hNoMarker]
  obtain ⟨c0, mr, hmm0, _⟩ := marker_head hm
  have hstep : findConfidence (mm ++ (ws ++ (numLit ++ ws2))) =
      if ciMarkerAt (mm ++ (ws ++ (numLit ++ ws2))) then
        match matchNumber (((mm ++ (ws ++ (numLit ++ ws2))).drop 11).dropWhile
            Caching.pyIsSpace) with
        | some q => some q
        | none => findConfidence (mr ++ (ws ++ (numLit ++ ws2)))
      else findConfidence (mr ++ (ws ++ (numLit ++ ws2))) := by
    rw [hmm0, List.cons_append, findConfidence_cons, ← List.cons_append, ← hmm0]
  rw [hstep, ciMarkerAt_marker mm _ hm, if_pos rfl, drop11_marker mm _ hm,
    dropWS_to_lit ws numLit ws2 hws hlit,
    matchNumber_lit_ws numLit ws2 hlit hws2]

/-- The substitution of `_remove_confidence_marker` on a text of the
structured shape deletes the trailing-marker block (blank lines included)
and nothing else. -/
lemma remove_structured (body : Str) (a : Nat) (mm ws numLit ws2 : Str)
    (hbody : body.getLast? ≠ some 10)
    (hm : mm.map Caching.pyLowerChar = confMarker)
    (hws : ∀ c ∈ ws, Caching.pyIsSpace c = true)
    (hws2 : ∀ c ∈ ws2, Caching.pyIsSpace c = true)
    (hlit : IsNumLit numLit)
    (hNoMarker : ∀ q, q < (body ++ List.replicate a 10).length →
      ciMarkerAt ((body ++ List.replicate a 10).drop q ++
        (mm ++ (ws ++ (numLit ++ ws2)))) = false) :
    remove_confidence_marker ((body ++ List.replicate a 10) ++
        (mm ++ (ws ++ (numLit ++ ws2)))) = body := by
  rw [List.append_assoc]
  apply remove_append_of_no_match
  · intro q hq
    apply suffixMatches_false_of_marker_false
    have hvne : body.drop q ≠ [] := by
      intro hnil
      rw [List.drop_eq_nil_iff] at hnil
      omega
    obtain ⟨w, cl, hwcl⟩ : ∃ w cl, body.drop q = w ++ [cl] := by
      rcases Caching.eq_nil_or_snoc (body.drop q) with h | ⟨w, cl, h⟩
      · exact absurd h hvne
      · exact ⟨w, cl, h⟩
    have hcl : cl ≠ 10 := by
      intro hcl10
      apply hbody
      have hb : body = body.take q ++ (w ++ [cl]) := by
        rw [← hwcl, List.take_append_drop]
      rw [hb, hcl10]
      simp
    have hsplit : ((body.drop q) ++ (List.replicate a 10 ++
        (mm ++ (ws ++ (numLit ++ ws2))))).dropWhile (fun c => c = 10) =
        (body.drop q).dropWhile (fun c => c = 10) ++ (List.replicate a 10 ++
          (mm ++ (ws ++ (numLit ++ ws2)))) := by
      apply Caching.dropWhile_append_of_exists
      exact ⟨cl, by rw [hwcl]; simp, by simp [hcl]⟩
    rw [hsplit]
    have hk : ((body.drop q).takeWhile (fun c => c = 10)).length <
        (body.drop q).length := by
      rcases Nat.lt_or_ge ((body.drop q).takeWhile (fun c => c = 10)).length
          (body.drop q).length with h | h
      · exact h
      · exfalso
        have hge : (body.drop q).dropWhile (fun c => c = 10) = [] := by
          rw [dropWhile_eq_drop]
          exact List.drop_eq_nil_of_le h
        have := List.dropWhile_eq_nil_iff.1 hge cl (by rw [hwcl]; simp)
        simp at this
        exact hcl this
    rw [dropWhile_eq_drop, List.drop_drop]
    have hlen : (body.drop q).length = body.length - q := List.length_drop q body
    have hle : q + ((body.drop q).takeWhile (fun c => c = 10)).length ≤
        body.length := by omega
    rw [← List.append_assoc, ← List.drop_append_of_le_length hle]
    have hlt : q + ((body.drop q).takeWhile (fun c => c = 10)).length <
        (body ++ List.replicate a 10).length := by
      rw [List.length_append]
      omega
    exact hNoMarker _ hlt
  · exact suffixMatches_marker_tail a mm ws numLit ws2 hm hws hws2 hlit

lemma remove_eq_self_of_no_marker (s : Str)
    (h : ∀ q, q < s.length → ciMarkerAt (s.drop q) = false) :
    remove_confidence_marker s = s := by
  induction s with
  | nil => rfl
  | cons c r ih =>
    rw [remove_cons]
    have hsm : suffixMatches (c :: r) = false := by
      apply suffixMatches_false_of_marker_false
      rw [dropWhile_eq_drop]
      rcases Nat.lt_or_ge (((c :: r).takeWhile (fun c => c = 10)).length)
          ((c :: r).length) with hk | hk
      · exact h _ hk
      · rw [List.drop_eq_nil_of_le hk]
        exact ciMarkerAt_nil
    rw [hsm]
    simp only [Bool.false_eq_true, if_false]
    exact congrArg (c :: ·) (ih fun q hq => by
      simpa using h (q + 1) (by simpa using Nat.succ_lt_succ hq))

lemma findConfidence_none_of_no_marker (s : Str)
    (h : ∀ q, q < s.length → ciMarkerAt (s.drop q) = false) :
    findConfidence s = none := by
  have happ := findConfidence_append s [] (by
    intro q hq
    simpa using h q hq)
  simpa using happ

lemma findConfidence_none_of_malformed (s : Str)
    (h : ∀ q, q < s.length → ciMarkerAt (s.drop q) = true →
      matchNumber (((s.drop q).drop 11).dropWhile Caching.pyIsSpace) = none) :
    findConfidence s = none := by
  induction s with
  | nil => rfl
  | cons c r ih =>
    rw [findConfidence_cons]
    have hr : findConfidence r = none := ih fun q hq hm => by
      have := h (q + 1) (by simpa using Nat.succ_lt_succ hq) (by simpa using hm)
      simpa using this
    by_cases hc : ciMarkerAt (c :: r) = true
    · rw [if_pos hc]
      have h0 := h 0 (by simp) (by simpa using hc)
      simp only [List.drop_zero] at h0
      rw [h0]
      exact hr
    · rw [if_neg hc]
      exact hr

end Generation

/-- **C9** (counterexample).  On the response text
`"CONFIDENCE: 1 is my answer"` the marker is present, so the parsed
confidence is returned (1, clamped), but the marker is *not* stripped
from the returned answer text: `_parse_confidence` searches anywhere in
the text while `_remove_confidence_marker` only deletes a marker at the
very end, so a mid-text marker survives verbatim. -/
theorem C9_marker_parsed_but_not_stripped :
    Generation.generate_answer_post
        [67, 79, 78, 70, 73, 68, 69, 78, 67, 69, 58, 32, 49, 32, 105, 115,
          32, 109, 121, 32, 97, 110, 115, 119, 101, 114] true =
      { answer := [67, 79, 78, 70, 73, 68, 69, 78, 67, 69, 58, 32, 49, 32,
          105, 115, 32, 109, 121, 32, 97, 110, 115, 119, 101, 114],
        confidence_score := some 1 } := by
  decide

/-- **C9** (amended).  Confidence extraction, for a response text asked
for with confidence:
1. if the text is "body, then blank lines, then a case-insensitive
   `CONFIDENCE:` marker, whitespace, a well-formed number, trailing
   whitespace" — and the marker occurs nowhere earlier — then the returned
   confidence is that number clamped to `[0, 1]` and the returned answer
   is the stripped body: the trailing marker and its preceding blank lines
   are removed;
2. if the marker occurs nowhere in the text, no confidence is returned
   and the answer is the stripped text, unchanged;
3. if every occurrence of the marker is followed by no well-formed
   number (malformed value), no confidence is returned and no error is
   raised (the function is total).
A marker that is present but not trailing is parsed yet *not* stripped
(see the counterexample), which is the only divergence from the claim. -/
theorem C9_confidence_parse_amended :
    (∀ (body : Str) (a : Nat) (mm ws numLit ws2 : Str),
      body.getLast? ≠ some 10 →
      mm.map Caching.pyLowerChar = Generation.confMarker →
      (∀ c ∈ ws, Caching.pyIsSpace c = true) →
      (∀ c ∈ ws2, Caching.pyIsSpace c = true) →
      Generation.IsNumLit numLit →
      (∀ q, q < (body ++ List.replicate a 10).length →
        Generation.ciMarkerAt ((body ++ List.replicate a 10).drop q ++
          (mm ++ (ws ++ (numLit ++ ws2)))) = false) →
      Generation.generate_answer_post
          ((body ++ List.replicate a 10) ++ (mm ++ (ws ++ (numLit ++ ws2)))) true =
        { answer := Caching.pyStrip body,
          confidence_score :=
            some (min (max (Generation.numLitVal numLit) 0) 1) }) ∧
    (∀ raw : Str,
      (∀ q, q < raw.length → Generation.ciMarkerAt (raw.drop q) = false) →
      Generation.generate_answer_post raw true =
        { answer := Caching.pyStrip raw, confidence_score := none }) ∧
    (∀ raw : Str,
      (∀ q, q < raw.length → Generation.ciMarkerAt (raw.drop q) = true →
        Generation.matchNumber (((raw.drop q).drop 11).dropWhile
          Caching.pyIsSpace) = none) →
      (Generation.generate_answer_post raw true).confidence_score = none) := by
  refine ⟨?_, ?_, ?_⟩
  · intro body a mm ws numLit ws2 hbody hm hws hws2 hlit hNoMarker
    have h1 := Generation.remove_structured body a mm ws numLit ws2 hbody hm
      hws hws2 hlit hNoMarker
    have h2 := Generation.findConfidence_structured body a mm ws numLit ws2 hm
      hws hws2 hlit hNoMarker
    rw [List.append_assoc] at h1 h2
    simp [Generation.generate_answer_post, Generation.parse_confidence, h1, h2]
  · intro raw hraw
    have h1 := Generation.remove_eq_self_of_no_marker raw hraw
    have h2 := Generation.findConfidence_none_of_no_marker raw hraw
    simp [Generation.generate_answer_post, Generation.parse_confidence, h1, h2]
  · intro raw hraw
    have h2 := Generation.findConfidence_none_of_malformed raw hraw
    simp [Generation.generate_answer_post, Generation.parse_confidence, h2]

/-- Witness for `C9_confidence_parse_amended`: (1) the response
`"hi\nCONFIDENCE: 1"` yields answer `"hi"` and confidence 1; (2) the
markerless response `"hi"` yields no confidence; (3) the malformed
response `"CONFIDENCE: abc"` yields no confidence. -/
theorem C9_confidence_parse_amended_witness :
    Generation.generate_answer_post
        (([104, 105] ++ List.replicate 1 10) ++
          ([67, 79, 78, 70, 73, 68, 69, 78, 67, 69, 58] ++
            ([32] ++ ([49] ++ ([] : Str))))) true =
      { answer := Caching.pyStrip [104, 105],
        confidence_score := some (min (max (Generation.numLitVal [49]) 0) 1) } ∧
    Generation.generate_answer_post [104, 105] true =
      { answer := Caching.pyStrip [104, 105], confidence_score := none } ∧
    (Generation.generate_answer_post
      [67, 79, 78, 70, 73, 68, 69, 78, 67, 69, 58, 32, 97, 98, 99]
      true).confidence_score = none :=
  ⟨C9_confidence_parse_amended.1 [104, 105] 1
      [67, 79, 78, 70, 73, 68, 69, 78, 67, 69, 58] [32] [49] []
      (by decide) (by decide) (by decide) (by decide)
      (Or.inl ⟨by decide, by decide⟩) (by decide),
   C9_confidence_parse_amended.2.1 [104, 105] (by decide),
   C9_confidence_parse_amended.2.2
      [67, 79, 78, 70, 73, 68, 69, 78, 67, 69, 58, 32, 97, 98, 99]
      (by decide)⟩

namespace Pipeline

/-- A Django `DocumentChunk` row (the fields the answering flow reads). -/
structure DBChunk where
  chromadb_id : Str
  content : Str
  chunk_metadata : Nat
deriving DecidableEq

/-- A metadata dictionary as the answering flow builds them.  `base n` is
an opaque dict with no `cached` key (e.g. the generator's metadata);
`cacheTag m key` is `{**m, 'cached': True, 'cache_key': key}`;
`noContext` is `{'error': 'No relevant context found'}`. -/
inductive Meta where
  | base (n : Nat)
  | cacheTag (m : Meta) (key : Str)
  | noContext
deriving DecidableEq

/-- `result.get('metadata', {}).get('cached', False)`. -/
def Meta.cachedFlag : Meta → Bool
  | .cacheTag _ _ => true
  | .base _ => false
  | .noContext => false

/-- One entry of a result's `source_chunks` list. -/
structure SrcChunk where
  sid : Str
  content : Str
  similarity : Option ℚ
  smeta : Nat
deriving DecidableEq

/-- A Django `Answer` row.  `generated_at` is a timestamp (opaque tick);
`cached`, `regenerated_count`, `metadata` as in `models.py`. -/
structure AnswerRec where
  answer_text : Str
  confidence_score : Option ℚ
  source_chunks : List DBChunk
  cached : Bool
  regenerated_count : Nat
  metadata : Meta
  generated_at : Nat
deriving DecidableEq

/-- A Django `Question` row together with its optional `Answer`
(`answer__isnull` joins are modelled by the option). -/
structure QA where
  question_hash : Str
  answer : Option AnswerRec
deriving DecidableEq

/-- The answers of all questions whose stored `question_hash` equals `h`
(`Question.objects.filter(question_hash=h, answer__isnull=False)`),
in table order. -/
def candidates (db : List QA) (h : Str) : List AnswerRec :=
  (db.filter (fun q => decide (q.question_hash = h) && q.answer.isSome)).filterMap
    (fun q => q.answer)

/-- `order_by('-answer__generated_at').first()`: the first answer with
maximal `generated_at` (a stable descending sort puts the earliest-listed
of the maxima first). -/
def mostRecent : List AnswerRec → Option AnswerRec
  | [] => none
  | a :: rest =>
    match mostRecent rest with
    | none => some a
    | some b => if b.generated_at > a.generated_at then some b else some a

/-- `find_cached_answer` from `services/caching.py`. -/
def find_cached_answer (db : List QA) (h : Str) : Option AnswerRec :=
  mostRecent (candidates db h)

/-- A `generate_answer` result dictionary. -/
structure GenResult where
  answer : Str
  confidence_score : Option ℚ
  source_chunks : List SrcChunk
  metadata : Meta
deriving DecidableEq

/-- The outbound calls `generate_answer` can make. -/
inductive CallK where
  | embed
  | vsearch
  | generate
deriving DecidableEq

/-- The outcome of the external generation call (already post-processed
by `AnswerGenerator.generate_answer`). -/
structure GenCall where
  answer : Str
  confidence_score : Option ℚ
  gmeta : Nat
deriving DecidableEq

/-- Environment of one `generate_answer` run: the question's hash
(`generate_question_hash` is an opaque cryptographic hash of the
normalized text), the distances the vector backend reports against the
question's embedding, and the generation call's outcome. -/
structure PipeEnv where
  question_hash : Str
  collection : List VectorStore.Entry
  genCall : GenCall
deriving DecidableEq

/-- `RAGPipeline.retrieve_context`: embed the question, search the store,
and format each hit with `similarity = 1 - distance/2`. -/
def retrieve_context (collection : List VectorStore.Entry) (top_k : Nat)
    (similarity_threshold : ℚ) : List SrcChunk :=
  (VectorStore.search collection top_k similarity_threshold).map
    (fun e => ⟨e.eid, e.doc, some (1 - e.dist / 2), e.meta⟩)

/-- Code points of the fixed insufficient-information answer text
`"I don't have enough information in the knowledge base to answer this
question."` (39 is the apostrophe). -/
def insufficientText : Str :=
  ("I don".data.map Char.toNat) ++ [39] ++
    (("t have enough information in the knowledge base to answer " ++
      "this question.").data.map Char.toNat)

/-- The no-cache path of `generate_answer`: retrieve context with the
default threshold 0.3; with no chunk passing the threshold, short-circuit
with the fixed answer, confidence 0 and empty provenance; otherwise call
the generator and attach the retrieved chunks as provenance. -/
def generate_answer_fresh (env : PipeEnv) (top_k : Nat) :
    GenResult × List CallK :=
  let context_chunks := retrieve_context env.collection top_k (3/10)
  if context_chunks = [] then
    ({ answer := insufficientText, confidence_score := some 0,
       source_chunks := [], metadata := .noContext },
     [.embed, .vsearch])
  else
    ({ answer := env.genCall.answer,
       confidence_score := env.genCall.confidence_score,
       source_chunks := context_chunks,
       metadata := .base env.genCall.gmeta },
     [.embed, .vsearch, .generate])

/-- `RAGPipeline.generate_answer` (`services/rag_pipeline.py` 184-262),
with the outbound calls it performs recorded alongside the result. -/
def generate_answer (env : PipeEnv) (db : List QA)
    (top_k : Nat) (use_cache : Bool) : GenResult × List CallK :=
  if use_cache then
    match find_cached_answer db env.question_hash with
    | some cached_answer =>
      ({ answer := cached_answer.answer_text,
         confidence_score := cached_answer.confidence_score,
         source_chunks := cached_answer.source_chunks.map
           (fun c => ⟨c.chromadb_id, c.content, none, c.chunk_metadata⟩),
         metadata := .cacheTag cached_answer.metadata env.question_hash },
       [])
    | none => generate_answer_fresh env top_k
  else generate_answer_fresh env top_k

end Pipeline

namespace Pipeline

/-- Document row state (the fields `process_document` touches).
`metaError` is `metadata['error']`; `metaAgg` records whether the
success-path `metadata.update({text_length, chunk_count, ...})` ran. -/
inductive DocStatus where
  | pending
  | processing
  | completed
  | failed
deriving DecidableEq

structure DocState where
  processing_status : DocStatus
  processed : Bool
  chunk_count : Nat
  metaError : Option Str
  metaAgg : Bool
deriving DecidableEq

/-- Outcomes of the external steps of one ingestion run.  Each field is
the outcome the outside world produces when (and if) the step runs:
`Except.error e` models the call raising with message `e`. -/
structure IngestEnv where
  extract : Except Str Str
  docMeta : Except Str Nat
  chunks : Except Str (List Str)
  embeds : Except Str Nat
  bulkCreate : Except Str Unit
  collectionAdd : Except Str Unit

/-- `VectorStore.add_chunks`: forwards to `collection.add`, catching any
exception; returns `True` on success and `False` on failure.  The
exception never escapes. -/
def add_chunks (collectionAdd : Except Str Unit) : Bool :=
  match collectionAdd with
  | .ok _ => true
  | .error _ => false

/-- The `process_document` return dictionary:
`{'success': True, 'chunks_created', 'text_length', 'metadata'}` or
`{'success': False, 'error'}`. -/
inductive PDResult where
  | ok (chunks_created : Nat) (text_length : Nat) (docMeta : Nat)
  | fail (error : Str)
deriving DecidableEq

/-- The steps of `process_document`, for recording which ran. -/
inductive IngStep where
  | extract
  | getMeta
  | chunk
  | embed
  | persistChunks
  | vectorAdd
deriving DecidableEq

/-- The `except` block of `process_document`: mark the document failed
and record the error message in its metadata. -/
def markFailed (d : DocState) (e : Str) : DocState :=
  { d with processing_status := .failed, metaError := some e }

def couldNotExtractMsg : Str :=
  "Could not extract text from document".data.map Char.toNat

def noChunksMsg : Str :=
  "No chunks generated from document".data.map Char.toNat

/-- `RAGPipeline.process_document` (`services/rag_pipeline.py` 30-142):
extract, get metadata, chunk, embed, bulk-persist chunk rows, add vectors
to the index, then mark the document completed.  Any raising step jumps
to the handler, which marks the document failed and *returns* a
`success=False` dictionary — the triple's `Except` layer records whether
the method itself raises (it never does), and the step list records which
external calls ran. -/
def process_document (env : IngestEnv) (doc0 : DocState) :
    DocState × Except Str PDResult × List IngStep :=
  let doc := { doc0 with processing_status := DocStatus.processing }
  match env.extract with
  | .error e => (markFailed doc e, .ok (.fail e), [.extract])
  | .ok text =>
    if text = [] then
      (markFailed doc couldNotExtractMsg, .ok (.fail couldNotExtractMsg),
        [.extract])
    else
      match env.docMeta with
      | .error e => (markFailed doc e, .ok (.fail e), [.extract, .getMeta])
      | .ok dm =>
        match env.chunks with
        | .error e =>
          (markFailed doc e, .ok (.fail e), [.extract, .getMeta, .chunk])
        | .ok chunks =>
          if chunks = [] then
            (markFailed doc noChunksMsg, .ok (.fail noChunksMsg),
              [.extract, .getMeta, .chunk])
          else
            match env.embeds with
            | .error e =>
              (markFailed doc e, .ok (.fail e),
                [.extract, .getMeta, .chunk, .embed])
            | .ok _ =>
              match env.bulkCreate with
              | .error e =>
                (markFailed doc e, .ok (.fail e),
                  [.extract, .getMeta, .chunk, .embed, .persistChunks])
              | .ok _ =>
                -- add_chunks swallows index failures and its Bool return
                -- value is not inspected by process_document
                let _added := add_chunks env.collectionAdd
                let docDone : DocState :=
                  { doc with
                    processed := true
                    processing_status := DocStatus.completed
                    chunk_count := chunks.length
                    metaAgg := true }
                (docDone, .ok (.ok chunks.length text.length dm),
                  [.extract, .getMeta, .chunk, .embed, .persistChunks,
                    .vectorAdd])

end Pipeline

namespace Tasks

/-- Job status values these tasks actually write (`tasks.py` only ever
sets `STARTED`, `SUCCESS`, `FAILURE`; the `PENDING`/`PROGRESS` values of
the model exist but are never assigned by the workers). -/
inductive JStatus where
  | started
  | success
  | failure
deriving DecidableEq

/-- A `TaskStatus` row snapshot (one per `save()`).  `started` and
`completed` model `started_at IS NOT NULL` / `completed_at IS NOT NULL`;
`hasResult` models a non-null `result` payload.  The human-readable
`current_step` label is not modelled. -/
structure TS where
  status : JStatus
  progress : Nat
  total_steps : Nat
  error : Option Str
  hasResult : Bool
  started : Bool
  completed : Bool
deriving DecidableEq

/-- The freshly created record: `status='STARTED'`, defaults elsewhere. -/
def createTS (total : Nat) : TS :=
  { status := .started, progress := 0, total_steps := total, error := none,
    hasResult := false, started := false, completed := false }

/-- The failure write of the generic `except` handler. -/
def failTS (t : TS) (e : Str) : TS :=
  { t with status := .failure, error := some e, completed := true }

def docNotFoundMsg : Str := "Document not found".data.map Char.toNat

def rfpNotFoundMsg : Str := "RFP not found".data.map Char.toNat

def noQuestionsMsg : Str :=
  "No questions found for this RFP".data.map Char.toNat

/-- Environment of one `process_document_async` run: whether the
`Document` row exists, whether `get_rag_pipeline()` itself raises
(e.g. a missing API key), and the ingestion step outcomes. -/
structure DocTaskEnv where
  docExists : Bool
  pipelineInit : Except Str Unit
  ingest : Pipeline.IngestEnv

/-- `process_document_async` (`tasks.py` 11-120).  Returns the trace of
`TaskStatus` snapshots (one per `save()`, empty when the row is never
created), the final document row (when one exists), and the task's own
outcome (`Except.error` models the re-raise). -/
def process_document_async (env : DocTaskEnv) (doc0 : Pipeline.DocState) :
    List TS × Option Pipeline.DocState × Except Str (Nat × Nat) :=
  if env.docExists = false then
    -- Document.objects.get raises DoesNotExist before the record is
    -- created; the handler re-raises and no TaskStatus row exists
    ([], none, .error docNotFoundMsg)
  else
    let t1 := createTS 5
    let t2 := { t1 with started := true }
    let doc1 := { doc0 with processing_status := Pipeline.DocStatus.processing }
    let t3 := { t2 with progress := 10 }
    let t4 := { t3 with progress := 20 }
    match env.pipelineInit with
    | .error e =>
      ([t1, t2, t3, t4] ++ [failTS t4 e],
        some (Pipeline.markFailed doc1 e), .error e)
    | .ok _ =>
      let t5 := { t4 with progress := 40 }
      match Pipeline.process_document env.ingest doc1 with
      | (doc2, .error e, _) =>
        ([t1, t2, t3, t4, t5] ++ [failTS t5 e],
          some (Pipeline.markFailed doc2 e), .error e)
      | (doc2, .ok r, _) =>
        let t6 := { t5 with progress := 90 }
        match r with
        | .ok chunks_created text_length _ =>
          let t7 := { t6 with
            status := JStatus.success
            progress := 100
            hasResult := true
            completed := true }
          ([t1, t2, t3, t4, t5, t6] ++ [t7], some doc2,
            .ok (chunks_created, text_length))
        | .fail e =>
          ([t1, t2, t3, t4, t5, t6] ++ [failTS t6 e],
            some (Pipeline.markFailed doc2 e), .error e)

/-- One question of a batch run: its pre-existing `Answer` row (if any)
and the outcome of `pipeline.generate_answer` for it (`Except.error`
models a raise inside embedding or generation). -/
structure QTask where
  existing : Option Pipeline.AnswerRec
  outcome : Except Str Pipeline.GenResult

/-- Environment of one `generate_answers_async` run. -/
structure BatchEnv where
  rfpExists : Bool
  pipelineInit : Except Str Unit
  questions : List QTask
  chunkDB : List Pipeline.DBChunk
  now : Nat

inductive RfpStatus where
  | pending
  | processing
  | completed
  | failed
deriving DecidableEq

/-- The per-question body of the loop (`tasks.py` 186-209): read the
`cached` tag, get-or-create the `Answer` row (existing rows keep all
their fields), then replace the row's source-chunk set — but only when
the new result has at least one source chunk. -/
def answerStep (chunkDB : List Pipeline.DBChunk) (now : Nat)
    (existing : Option Pipeline.AnswerRec) (result : Pipeline.GenResult) :
    Pipeline.AnswerRec × Bool :=
  let is_cached := result.metadata.cachedFlag
  let (answer, created) :=
    match existing with
    | some a => (a, false)
    | none =>
      ({ answer_text := result.answer
         confidence_score := result.confidence_score
         source_chunks := []
         cached := is_cached
         regenerated_count := 0
         metadata := result.metadata
         generated_at := now : Pipeline.AnswerRec }, true)
  let answer :=
    if result.source_chunks ≠ [] then
      { answer with source_chunks :=
          chunkDB.filter (fun c =>
            decide (c.chromadb_id ∈ result.source_chunks.map
              (fun s => s.sid))) }
    else answer
  (answer, created)

/-- Output of the question loop: the saved progress snapshots, the
`Answer` writes performed (row and created-flag, in order), the cached
counter, the error that aborted the loop (if any), and the last saved
snapshot. -/
structure LoopOut where
  trace : List TS
  writes : List (Pipeline.AnswerRec × Bool)
  cachedCount : Nat
  err : Option Str
  tlast : TS

/-- The `for idx, question in enumerate(questions, 1)` loop
(`tasks.py` 171-209).  `int((idx/total)*100)` is modelled as exact
floored division. -/
def runQuestions (chunkDB : List Pipeline.DBChunk) (now : Nat) (total : Nat) :
    TS → Nat → List QTask → LoopOut
  | t, _, [] => ⟨[], [], 0, none, t⟩
  | t, idx, q :: rest =>
    let tprog := { t with progress := idx * 100 / total }
    match q.outcome with
    | .error e => ⟨[tprog], [], 0, some e, tprog⟩
    | .ok result =>
      let w := answerStep chunkDB now q.existing result
      let out := runQuestions chunkDB now total tprog (idx + 1) rest
      ⟨tprog :: out.trace, w :: out.writes,
        (if result.metadata.cachedFlag then 1 else 0) + out.cachedCount,
        out.err, out.tlast⟩

/-- `generate_answers_async` (`tasks.py` 123-264).  Returns the
`TaskStatus` trace, the final RFP status (when the row exists), the
`Answer` writes performed, and the task's own outcome
`(total_questions, answers_created, answers_cached)`. -/
def generate_answers_async (env : BatchEnv) :
    List TS × Option RfpStatus × List (Pipeline.AnswerRec × Bool) ×
      Except Str (Nat × Nat × Nat) :=
  if env.rfpExists = false then
    ([], none, [], .error rfpNotFoundMsg)
  else
    let t1 := createTS 0
    let t2 := { t1 with started := true }
    let total := env.questions.length
    if total = 0 then
      ([t1, t2] ++ [failTS t2 noQuestionsMsg], some RfpStatus.failed, [],
        .error noQuestionsMsg)
    else
      let t3 := { t2 with total_steps := total }
      match env.pipelineInit with
      | .error e =>
        ([t1, t2, t3] ++ [failTS t3 e], some RfpStatus.failed, [], .error e)
      | .ok _ =>
        let out := runQuestions env.chunkDB env.now total t3 1 env.questions
        match out.err with
        | some e =>
          ([t1, t2, t3] ++ out.trace ++ [failTS out.tlast e],
            some RfpStatus.failed, out.writes, .error e)
        | none =>
          let tfin := { out.tlast with
            status := JStatus.success
            progress := 100
            hasResult := true
            completed := true }
          ([t1, t2, t3] ++ out.trace ++ [tfin], some RfpStatus.completed,
            out.writes,
            .ok (total, (out.writes.filter (fun w => w.2)).length,
              out.cachedCount))

end Tasks

namespace Pipeline

lemma mostRecent_cons (x : AnswerRec) (rest : List AnswerRec) :
    mostRecent (x :: rest) =
      match mostRecent rest with
      | none => some x
      | some b => if b.generated_at > x.generated_at then some b else some x :=
  rfl

/-- `mostRecent` of a nonempty list returns a member with maximal
`generated_at`. -/
lemma mostRecent_spec (l : List AnswerRec) (h : l ≠ []) :
    ∃ a, mostRecent l = some a ∧ a ∈ l ∧
      ∀ b ∈ l, b.generated_at ≤ a.generated_at := by
  induction l with
  | nil => exact absurd rfl h
  | cons x rest ih =>
    by_cases hrest : rest = []
    · subst hrest
      refine ⟨x, rfl, List.mem_cons_self _ _, ?_⟩
      intro b hb
      rw [List.mem_singleton.1 hb]
    · obtain ⟨a, ha, hmem, hmax⟩ := ih hrest
      rw [mostRecent_cons, ha]
      by_cases hgt : a.generated_at > x.generated_at
      · refine ⟨a, ?_, List.mem_cons_of_mem _ hmem, ?_⟩
        · show (if a.generated_at > x.generated_at
              then some a else some x) = some a
          rw [if_pos hgt]
        intro b hb
        rcases List.mem_cons.1 hb with rfl | hb'
        · exact le_of_lt hgt
        · exact hmax b hb'
      · refine ⟨x, ?_, List.mem_cons_self _ _, ?_⟩
        · show (if a.generated_at > x.generated_at
              then some a else some x) = some x
          rw [if_neg hgt]
        intro b hb
        rcases List.mem_cons.1 hb with rfl | hb'
        · exact le_refl _
        · exact le_trans (hmax b hb') (le_of_not_lt hgt)

lemma candidates_isSome (db : List QA) (h : Str)
    (hne : candidates db h ≠ []) :
    (find_cached_answer db h).isSome = true := by
  obtain ⟨a, ha, -, -⟩ := mostRecent_spec _ hne
  unfold find_cached_answer
  rw [ha]
  rfl

lemma retrieve_context_nil (top_k : Nat) (th : ℚ) :
    retrieve_context [] top_k th = [] := by
  simp [retrieve_context, VectorStore.search, VectorStore.query,
    List.insertionSort]

end Pipeline

/-- **C7**.  With caching enabled, when some question with the same
normalized-text hash already has a persisted answer, `generate_answer`
returns exactly that (most recent) answer's text, confidence and recorded
provenance, with metadata tagged `cached=True`, and performs no
embedding, vector-search or generation call (the call list is empty). -/
theorem C7_cache_hit_returns_cached (env : Pipeline.PipeEnv)
    (db : List Pipeline.QA) (top_k : Nat) :
    (Pipeline.candidates db env.question_hash ≠ [] →
      (Pipeline.find_cached_answer db env.question_hash).isSome = true) ∧
    (∀ ca, Pipeline.find_cached_answer db env.question_hash = some ca →
      ca ∈ Pipeline.candidates db env.question_hash ∧
      (∀ b ∈ Pipeline.candidates db env.question_hash,
        b.generated_at ≤ ca.generated_at) ∧
      Pipeline.generate_answer env db top_k true =
        ({ answer := ca.answer_text,
           confidence_score := ca.confidence_score,
           source_chunks := ca.source_chunks.map
             (fun c => ⟨c.chromadb_id, c.content, none, c.chunk_metadata⟩),
           metadata := Pipeline.Meta.cacheTag ca.metadata env.question_hash },
         []) ∧
      (Pipeline.generate_answer env db top_k true).1.metadata.cachedFlag =
        true) := by
  refine ⟨Pipeline.candidates_isSome db env.question_hash, ?_⟩
  intro ca hfind
  have hne : Pipeline.candidates db env.question_hash ≠ [] := by
    intro hnil
    unfold Pipeline.find_cached_answer at hfind
    rw [hnil] at hfind
    simp [Pipeline.mostRecent] at hfind
  obtain ⟨a, ha, hmem, hmax⟩ := Pipeline.mostRecent_spec _ hne
  have hca : a = ca := by
    have h2 : Pipeline.find_cached_answer db env.question_hash = some a := ha
    rw [hfind] at h2
    exact (Option.some_inj.1 h2).symm
  subst hca
  refine ⟨hmem, hmax, ?_, ?_⟩
  · unfold Pipeline.generate_answer
    rw [if_pos rfl, hfind]
  · unfold Pipeline.generate_answer
    rw [if_pos rfl, hfind]
    rfl

/-- Witness for `C7_cache_hit_returns_cached`: one question with hash
`[104]` and a persisted answer; the lookup hits and the pipeline returns
that answer verbatim with the empty call list. -/
theorem C7_cache_hit_returns_cached_witness :
    (Pipeline.find_cached_answer
      [⟨[104], some ⟨[97], none, [⟨[99, 49], [116], 5⟩], false, 0,
        Pipeline.Meta.base 3, 42⟩⟩] [104]).isSome = true ∧
    Pipeline.generate_answer ⟨[104], [], ⟨[], none, 0⟩⟩
        [⟨[104], some ⟨[97], none, [⟨[99, 49], [116], 5⟩], false, 0,
          Pipeline.Meta.base 3, 42⟩⟩] 5 true =
      ({ answer := [97],
         confidence_score := none,
         source_chunks := [⟨[99, 49], [116], none, 5⟩],
         metadata := Pipeline.Meta.cacheTag (Pipeline.Meta.base 3) [104] },
       []) :=
  ⟨(C7_cache_hit_returns_cached ⟨[104], [], ⟨[], none, 0⟩⟩
      [⟨[104], some ⟨[97], none, [⟨[99, 49], [116], 5⟩], false, 0,
        Pipeline.Meta.base 3, 42⟩⟩] 5).1 (by decide),
   by
    have h := ((C7_cache_hit_returns_cached ⟨[104], [], ⟨[], none, 0⟩⟩
      [⟨[104], some ⟨[97], none, [⟨[99, 49], [116], 5⟩], false, 0,
        Pipeline.Meta.base 3, 42⟩⟩] 5).2
      ⟨[97], none, [⟨[99, 49], [116], 5⟩], false, 0,
        Pipeline.Meta.base 3, 42⟩ (by decide)).2.2.1
    simpa using h⟩

/-- **C8**.  When the execution reaches retrieval (no cache
short-circuit) and no chunk passes the similarity threshold,
`generate_answer` returns the fixed insufficient-information text with
confidence 0 and empty provenance, and the generator is never invoked:
the calls are exactly embed and vector-search. -/
theorem C8_no_context_short_circuit (env : Pipeline.PipeEnv)
    (db : List Pipeline.QA) (top_k : Nat) (use_cache : Bool)
    (hmiss : use_cache = false ∨
      Pipeline.find_cached_answer db env.question_hash = none)
    (hempty : Pipeline.retrieve_context env.collection top_k (3/10) = []) :
    Pipeline.generate_answer env db top_k use_cache =
      ({ answer := Pipeline.insufficientText, confidence_score := some 0,
         source_chunks := [], metadata := Pipeline.Meta.noContext },
       [Pipeline.CallK.embed, Pipeline.CallK.vsearch]) ∧
    Pipeline.CallK.generate ∉
      (Pipeline.generate_answer env db top_k use_cache).2 := by
  have hfresh : Pipeline.generate_answer_fresh env top_k =
      ({ answer := Pipeline.insufficientText, confidence_score := some 0,
         source_chunks := [], metadata := Pipeline.Meta.noContext },
       [Pipeline.CallK.embed, Pipeline.CallK.vsearch]) := by
    unfold Pipeline.generate_answer_fresh
    rw [hempty]
    rfl
  have hmain : Pipeline.generate_answer env db top_k use_cache =
      ({ answer := Pipeline.insufficientText, confidence_score := some 0,
         source_chunks := [], metadata := Pipeline.Meta.noContext },
       [Pipeline.CallK.embed, Pipeline.CallK.vsearch]) := by
    rcases hmiss with rfl | hnone
    · unfold Pipeline.generate_answer
      rw [if_neg (by simp)]
      exact hfresh
    · unfold Pipeline.generate_answer
      cases use_cache with
      | false => exact hfresh
      | true => rw [if_pos rfl, hnone]; exact hfresh
  refine ⟨hmain, ?_⟩
  rw [hmain]
  decide

/-- Witness for `C8_no_context_short_circuit`: an empty vector store
yields no context for any question; the fixed answer is returned with
only the embed and search calls made. -/
theorem C8_no_context_short_circuit_witness :
    Pipeline.retrieve_context [] 5 (3/10) = [] ∧
    Pipeline.generate_answer ⟨[104], [], ⟨[120], none, 0⟩⟩ [] 5 false =
      ({ answer := Pipeline.insufficientText, confidence_score := some 0,
         source_chunks := [], metadata := Pipeline.Meta.noContext },
       [Pipeline.CallK.embed, Pipeline.CallK.vsearch]) :=
  ⟨Pipeline.retrieve_context_nil 5 (3/10),
   (C8_no_context_short_circuit ⟨[104], [], ⟨[120], none, 0⟩⟩ [] 5 false
      (Or.inl rfl) (Pipeline.retrieve_context_nil 5 (3/10))).1⟩

/-- **C3** (counterexample).  When text extraction raises (message
`"boom"`, code points `[98, 111, 111, 109]`), `process_document` aborts
the remaining steps, marks the document failed and records the error —
but it does *not* re-raise: the call returns normally (`Except.ok`) with
the `{'success': False, 'error': ...}` dictionary.  It is the async task,
not the orchestrator, that later converts this dictionary into an
exception. -/
theorem C3_failure_returned_not_reraised :
    Pipeline.process_document
        ⟨Except.error [98, 111, 111, 109], Except.ok 0, Except.ok [[120]],
          Except.ok 0, Except.ok (), Except.ok ()⟩
        ⟨Pipeline.DocStatus.pending, false, 0, none, false⟩ =
      (⟨Pipeline.DocStatus.failed, false, 0, some [98, 111, 111, 109], false⟩,
        Except.ok (Pipeline.PDResult.fail [98, 111, 111, 109]),
        [Pipeline.IngStep.extract]) := by
  rfl

/-- **C3** (amended).  For every ingestion in which the extract, metadata,
chunk, embed or chunk-persist step raises, `process_document` aborts the
remaining steps, marks the document FAILED, records the error message in
the document metadata, and *returns* a `success=False` result dictionary
to its caller instead of re-raising.  (An index-upsert failure is not
covered: `add_chunks` swallows it — see C4.) -/
theorem C3_step_failure_amended (env : Pipeline.IngestEnv)
    (doc : Pipeline.DocState) (e : Str) :
    (env.extract = Except.error e →
      Pipeline.process_document env doc =
        (Pipeline.markFailed
          { doc with processing_status := Pipeline.DocStatus.processing } e,
         Except.ok (Pipeline.PDResult.fail e), [Pipeline.IngStep.extract])) ∧
    (∀ text : Str, env.extract = Except.ok text → text ≠ [] →
      env.docMeta = Except.error e →
      Pipeline.process_document env doc =
        (Pipeline.markFailed
          { doc with processing_status := Pipeline.DocStatus.processing } e,
         Except.ok (Pipeline.PDResult.fail e),
         [Pipeline.IngStep.extract, Pipeline.IngStep.getMeta])) ∧
    (∀ (text : Str) (dm : Nat), env.extract = Except.ok text → text ≠ [] →
      env.docMeta = Except.ok dm → env.chunks = Except.error e →
      Pipeline.process_document env doc =
        (Pipeline.markFailed
          { doc with processing_status := Pipeline.DocStatus.processing } e,
         Except.ok (Pipeline.PDResult.fail e),
         [Pipeline.IngStep.extract, Pipeline.IngStep.getMeta,
           Pipeline.IngStep.chunk])) ∧
    (∀ (text : Str) (dm : Nat) (chunks : List Str),
      env.extract = Except.ok text → text ≠ [] →
      env.docMeta = Except.ok dm → env.chunks = Except.ok chunks →
      chunks ≠ [] → env.embeds = Except.error e →
      Pipeline.process_document env doc =
        (Pipeline.markFailed
          { doc with processing_status := Pipeline.DocStatus.processing } e,
         Except.ok (Pipeline.PDResult.fail e),
         [Pipeline.IngStep.extract, Pipeline.IngStep.getMeta,
           Pipeline.IngStep.chunk, Pipeline.IngStep.embed])) ∧
    (∀ (text : Str) (dm : Nat) (chunks : List Str) (em : Nat),
      env.extract = Except.ok text → text ≠ [] →
      env.docMeta = Except.ok dm → env.chunks = Except.ok chunks →
      chunks ≠ [] → env.embeds = Except.ok em →
      env.bulkCreate = Except.error e →
      Pipeline.process_document env doc =
        (Pipeline.markFailed
          { doc with processing_status := Pipeline.DocStatus.processing } e,
         Except.ok (Pipeline.PDResult.fail e),
         [Pipeline.IngStep.extract, Pipeline.IngStep.getMeta,
           Pipeline.IngStep.chunk, Pipeline.IngStep.embed,
           Pipeline.IngStep.persistChunks])) := by
  refine ⟨?_, ?_, ?_, ?_, ?_⟩
  · intro h1
    simp [Pipeline.process_document, h1]
  · intro text h1 h2 h3
    simp [Pipeline.process_document, h1, h2, h3]
  · intro text dm h1 h2 h3 h4
    simp [Pipeline.process_document, h1, h2, h3, h4]
  · intro text dm chunks h1 h2 h3 h4 h5 h6
    simp [Pipeline.process_document, h1, h2, h3, h4, h5, h6]
  · intro text dm chunks em h1 h2 h3 h4 h5 h6 h7
    simp [Pipeline.process_document, h1, h2, h3, h4, h5, h6, h7]

/-- Witness for `C3_step_failure_amended`: the embed step raising
`"boom"` on a document with one chunk. -/
theorem C3_step_failure_amended_witness :
    (⟨Except.ok [120], Except.ok 7, Except.ok [[99]],
        Except.error [98, 111, 111, 109], Except.ok (),
        Except.ok ()⟩ : Pipeline.IngestEnv).embeds =
      Except.error [98, 111, 111, 109] ∧
    Pipeline.process_document
        ⟨Except.ok [120], Except.ok 7, Except.ok [[99]],
          Except.error [98, 111, 111, 109], Except.ok (), Except.ok ()⟩
        ⟨Pipeline.DocStatus.pending, false, 0, none, false⟩ =
      (Pipeline.markFailed
        { (⟨Pipeline.DocStatus.pending, false, 0, none, false⟩ :
            Pipeline.DocState) with
            processing_status := Pipeline.DocStatus.processing }
        [98, 111, 111, 109],
       Except.ok (Pipeline.PDResult.fail [98, 111, 111, 109]),
       [Pipeline.IngStep.extract, Pipeline.IngStep.getMeta,
         Pipeline.IngStep.chunk, Pipeline.IngStep.embed]) :=
  ⟨rfl,
   (C3_step_failure_amended
      ⟨Except.ok [120], Except.ok 7, Except.ok [[99]],
        Except.error [98, 111, 111, 109], Except.ok (), Except.ok ()⟩
      ⟨Pipeline.DocStatus.pending, false, 0, none, false⟩
      [98, 111, 111, 109]).2.2.2.1
    [120] 7 [[99]] rfl (by decide) rfl rfl (by decide) rfl⟩

/-- **C4** (the claim is right, the code is wrong).  `add_chunks` signals
an index-write failure by returning `False` (`vector_store.py` 77-79),
but `process_document` ignores that return value
(`rag_pipeline.py` 108-113): an ingestion whose ChromaDB `collection.add`
raises still marks the document COMPLETED, returns `success=True`, and
the async task then marks the job SUCCESS — the failed index write does
not prevent the COMPLETED/SUCCESS outcome. -/
theorem C4_index_write_failure_still_success :
    Pipeline.add_chunks (Except.error [98, 111, 111, 109]) = false ∧
    Pipeline.process_document
        ⟨Except.ok [120], Except.ok 7, Except.ok [[99]], Except.ok 5,
          Except.ok (), Except.error [98, 111, 111, 109]⟩
        ⟨Pipeline.DocStatus.pending, false, 0, none, false⟩ =
      (⟨Pipeline.DocStatus.completed, true, 1, none, true⟩,
        Except.ok (Pipeline.PDResult.ok 1 1 7),
        [Pipeline.IngStep.extract, Pipeline.IngStep.getMeta,
          Pipeline.IngStep.chunk, Pipeline.IngStep.embed,
          Pipeline.IngStep.persistChunks, Pipeline.IngStep.vectorAdd]) ∧
    (Tasks.process_document_async
        ⟨true, Except.ok (),
          ⟨Except.ok [120], Except.ok 7, Except.ok [[99]], Except.ok 5,
            Except.ok (), Except.error [98, 111, 111, 109]⟩⟩
        ⟨Pipeline.DocStatus.pending, false, 0, none, false⟩).2.2 =
      Except.ok (1, 1) ∧
    ((Tasks.process_document_async
        ⟨true, Except.ok (),
          ⟨Except.ok [120], Except.ok 7, Except.ok [[99]], Except.ok 5,
            Except.ok (), Except.error [98, 111, 111, 109]⟩⟩
        ⟨Pipeline.DocStatus.pending, false, 0, none, false⟩).1.getLast?).map
      (fun t => t.status) = some Tasks.JStatus.success := by
  refine ⟨rfl, rfl, rfl, ?_⟩
  rfl

namespace Tasks

/-- The invariant of C2 over a trace of `TaskStatus` snapshots: the
completed timestamp is set exactly on terminal snapshots, every snapshot
but the last is non-terminal (`STARTED`), and the last snapshot — the
state the record is left in — is terminal. -/
def TraceOK (tr : List TS) : Prop :=
  (∀ ts ∈ tr, (ts.completed = true ↔ ts.status ≠ JStatus.started)) ∧
  (∀ ts ∈ tr.dropLast, ts.status = JStatus.started) ∧
  (∀ ts, tr.getLast? = some ts → ts.status ≠ JStatus.started)

lemma traceOK_nil : TraceOK [] := by
  refine ⟨by simp, by simp, by simp⟩

lemma traceOK_snoc (pre : List TS) (last : TS)
    (hpre : ∀ ts ∈ pre, ts.status = JStatus.started ∧ ts.completed = false)
    (hlast : last.status ≠ JStatus.started ∧ last.completed = true) :
    TraceOK (pre ++ [last]) := by
  refine ⟨?_, ?_, ?_⟩
  · intro ts hts
    rcases List.mem_append.1 hts with h | h
    · obtain ⟨h1, h2⟩ := hpre ts h
      constructor
      · intro hc
        rw [h2] at hc
        exact absurd hc (by simp)
      · intro hs
        exact absurd h1 hs
    · rw [List.mem_singleton.1 h]
      exact ⟨fun _ => hlast.1, fun _ => hlast.2⟩
  · intro ts hts
    rw [List.dropLast_concat] at hts
    exact (hpre ts hts).1
  · intro ts hts
    rw [List.getLast?_concat] at hts
    rw [← Option.some_inj.1 hts]
    exact hlast.1

lemma runQuestions_nil (chunkDB : List Pipeline.DBChunk) (now total : Nat)
    (t : TS) (idx : Nat) :
    runQuestions chunkDB now total t idx [] = ⟨[], [], 0, none, t⟩ := rfl

lemma runQuestions_cons (chunkDB : List Pipeline.DBChunk) (now total : Nat)
    (t : TS) (idx : Nat) (q : QTask) (rest : List QTask) :
    runQuestions chunkDB now total t idx (q :: rest) =
      (match q.outcome with
       | .error e => ⟨[{ t with progress := idx * 100 / total }], [], 0,
           some e, { t with progress := idx * 100 / total }⟩
       | .ok result =>
         let w := answerStep chunkDB now q.existing result
         let out := runQuestions chunkDB now total
           { t with progress := idx * 100 / total } (idx + 1) rest
         ⟨{ t with progress := idx * 100 / total } :: out.trace,
           w :: out.writes,
           (if result.metadata.cachedFlag then 1 else 0) + out.cachedCount,
           out.err, out.tlast⟩) := rfl

/-- Every snapshot the loop saves, and its final snapshot, stay
non-terminal and without completed timestamp. -/
lemma runQuestions_started (chunkDB : List Pipeline.DBChunk)
    (now total : Nat) :
    ∀ (qs : List QTask) (t : TS) (idx : Nat),
      t.status = JStatus.started → t.completed = false →
      (∀ ts ∈ (runQuestions chunkDB now total t idx qs).trace,
        ts.status = JStatus.started ∧ ts.completed = false) ∧
      (runQuestions chunkDB now total t idx qs).tlast.status =
        JStatus.started ∧
      (runQuestions chunkDB now total t idx qs).tlast.completed = false := by
  intro qs
  induction qs with
  | nil =>
    intro t idx h1 h2
    rw [runQuestions_nil]
    exact ⟨by simp, h1, h2⟩
  | cons q rest ih =>
    intro t idx h1 h2
    rw [runQuestions_cons]
    cases hq : q.outcome with
    | error e =>
      refine ⟨?_, h1, h2⟩
      intro ts hts
      rw [List.mem_singleton.1 hts]
      exact ⟨h1, h2⟩
    | ok result =>
      obtain ⟨htr, hl1, hl2⟩ := ih { t with progress := idx * 100 / total }
        (idx + 1) h1 h2
      refine ⟨?_, hl1, hl2⟩
      intro ts hts
      rcases List.mem_cons.1 hts with rfl | hts'
      · exact ⟨h1, h2⟩
      · exact htr ts hts'

/-- When question `i` of the batch raises and every earlier question
succeeds, the loop stops at question `i`: the error escapes the loop and
exactly the `i` earlier questions produced `Answer` writes. -/
lemma runQuestions_abort (chunkDB : List Pipeline.DBChunk)
    (now total : Nat) :
    ∀ (qs : List QTask) (i : Nat) (hi : i < qs.length) (e : Str),
      (qs.get ⟨i, hi⟩).outcome = Except.error e →
      (∀ j (hj : j < i),
        ∃ r, (qs.get ⟨j, by omega⟩).outcome = Except.ok r) →
      ∀ (t : TS) (idx : Nat),
        (runQuestions chunkDB now total t idx qs).err = some e ∧
        (runQuestions chunkDB now total t idx qs).writes.length = i := by
  intro qs
  induction qs with
  | nil =>
    intro i hi
    simp at hi
  | cons q rest ih =>
    intro i hi e hget hpre t idx
    cases i with
    | zero =>
      have hq : q.outcome = Except.error e := hget
      rw [runQuestions_cons, hq]
      exact ⟨rfl, rfl⟩
    | succ i' =>
      obtain ⟨r, hr⟩ := hpre 0 (Nat.succ_pos _)
      have hq : q.outcome = Except.ok r := hr
      rw [runQuestions_cons, hq]
      have hget' : (rest.get ⟨i', by simpa using Nat.lt_of_succ_lt_succ hi⟩).outcome =
          Except.error e := hget
      have hpre' : ∀ j (hj : j < i'),
          ∃ r2, (rest.get ⟨j, by
            have := Nat.lt_of_succ_lt_succ hi
            omega⟩).outcome = Except.ok r2 :=
        fun j hj => hpre (j + 1) (Nat.succ_lt_succ hj)
      obtain ⟨h1, h2⟩ := ih i' (by simpa using Nat.lt_of_succ_lt_succ hi) e
        hget' hpre' { t with progress := idx * 100 / total } (idx + 1)
      exact ⟨h1, by simpa using h2⟩

end Tasks

/-- **C2**.  For every execution of `process_document_async` and of
`generate_answers_async` — over all outcomes of the external world,
including an exception at any step — the job's `TaskStatus` record ends
in exactly one terminal state (every snapshot but the last is `STARTED`,
the last is `SUCCESS` or `FAILURE`), and its completed timestamp is set
exactly on the terminal snapshot.  (When the looked-up `Document`/`RFP`
row does not exist, the lookup raises before the record is created and
the trace is empty — no record exists to be left non-terminal.) -/
theorem C2_job_terminal_invariant :
    (∀ (env : Tasks.DocTaskEnv) (doc0 : Pipeline.DocState),
      Tasks.TraceOK (Tasks.process_document_async env doc0).1) ∧
    (∀ env : Tasks.BatchEnv,
      Tasks.TraceOK (Tasks.generate_answers_async env).1) := by
  constructor
  · intro env doc0
    simp only [Tasks.process_document_async]
    by_cases hex : env.docExists = false
    · rw [if_pos hex]
      exact Tasks.traceOK_nil
    · rw [if_neg hex]
      cases hpi : env.pipelineInit with
      | error e =>
        exact Tasks.traceOK_snoc _ _
          (by intro ts hts; fin_cases hts <;> exact ⟨rfl, rfl⟩)
          ⟨by simp [Tasks.failTS], rfl⟩
      | ok u =>
        rcases hpd : Pipeline.process_document env.ingest
            { doc0 with processing_status := Pipeline.DocStatus.processing }
          with ⟨doc2, exc, steps⟩
        cases exc with
        | error e =>
          exact Tasks.traceOK_snoc _ _
            (by intro ts hts; fin_cases hts <;> exact ⟨rfl, rfl⟩)
            ⟨by simp [Tasks.failTS], rfl⟩
        | ok r =>
          cases r with
          | ok cc tl dm =>
            exact Tasks.traceOK_snoc _ _
              (by intro ts hts; fin_cases hts <;> exact ⟨rfl, rfl⟩)
              ⟨by simp [Tasks.failTS], rfl⟩
          | fail e =>
            exact Tasks.traceOK_snoc _ _
              (by intro ts hts; fin_cases hts <;> exact ⟨rfl, rfl⟩)
              ⟨by simp [Tasks.failTS], rfl⟩
  · intro env
    simp only [Tasks.generate_answers_async]
    by_cases hex : env.rfpExists = false
    · rw [if_pos hex]
      exact Tasks.traceOK_nil
    · rw [if_neg hex]
      by_cases htot : env.questions.length = 0
      · rw [if_pos htot]
        exact Tasks.traceOK_snoc _ _
          (by intro ts hts; fin_cases hts <;> exact ⟨rfl, rfl⟩)
          ⟨by simp [Tasks.failTS], rfl⟩
      · rw [if_neg htot]
        cases hpi : env.pipelineInit with
        | error e =>
          exact Tasks.traceOK_snoc _ _
            (by intro ts hts; fin_cases hts <;> exact ⟨rfl, rfl⟩)
            ⟨by simp [Tasks.failTS], rfl⟩
        | ok u =>
          obtain ⟨hloop, hl1, hl2⟩ := Tasks.runQuestions_started env.chunkDB
            env.now env.questions.length env.questions
            { Tasks.createTS 0 with started := true, total_steps := env.questions.length } 1 rfl rfl
          rcases hout : Tasks.runQuestions env.chunkDB env.now
              env.questions.length
              { Tasks.createTS 0 with started := true, total_steps := env.questions.length } 1 env.questions
            with ⟨tr, ws, cc, err, tlast⟩
          rw [hout] at hloop hl1 hl2
          cases err with
          | some e =>
            refine Tasks.traceOK_snoc _ _ ?_ ⟨by simp [Tasks.failTS], rfl⟩
            intro ts hts
            rcases List.mem_append.1 hts with h | h
            · fin_cases h <;> exact ⟨rfl, rfl⟩
            · exact hloop ts h
          | none =>
            refine Tasks.traceOK_snoc _ _ ?_ ⟨by simp [Tasks.failTS], rfl⟩
            intro ts hts
            rcases List.mem_append.1 hts with h | h
            · fin_cases h <;> exact ⟨rfl, rfl⟩
            · exact hloop ts h

/-- Witness for `C2_job_terminal_invariant`: a fully successful document
ingestion run leaves the job record with a terminal last snapshot. -/
theorem C2_job_terminal_invariant_witness :
    Tasks.TraceOK (Tasks.process_document_async
      ⟨true, Except.ok (),
        ⟨Except.ok [120], Except.ok 7, Except.ok [[99]], Except.ok 5,
          Except.ok (), Except.ok ()⟩⟩
      ⟨Pipeline.DocStatus.pending, false, 0, none, false⟩).1 :=
  C2_job_terminal_invariant.1
    ⟨true, Except.ok (),
      ⟨Except.ok [120], Except.ok 7, Except.ok [[99]], Except.ok 5,
        Except.ok (), Except.ok ()⟩⟩
    ⟨Pipeline.DocStatus.pending, false, 0, none, false⟩

/-- **C1** (counterexample).  A batch of two questions whose first
question's generation call raises `"boom"`: the exception is *not*
caught per-question — no error list exists, no `Answer` row is written
for either question (the second is never processed), the RFP is marked
failed, the job ends `FAILURE`, and the exception propagates out of the
task.  This contradicts the claim that the failure is recorded in an
error list, that siblings are still processed, and that the job can
still end `SUCCESS`. -/
theorem C1_single_failure_aborts_batch :
    (Tasks.generate_answers_async
      ⟨true, Except.ok (),
        [⟨none, Except.error [98, 111, 111, 109]⟩,
         ⟨none, Except.ok ⟨[97], none, [], Pipeline.Meta.base 0⟩⟩],
        [], 0⟩).2.2.1 = [] ∧
    (Tasks.generate_answers_async
      ⟨true, Except.ok (),
        [⟨none, Except.error [98, 111, 111, 109]⟩,
         ⟨none, Except.ok ⟨[97], none, [], Pipeline.Meta.base 0⟩⟩],
        [], 0⟩).2.1 = some Tasks.RfpStatus.failed ∧
    (Tasks.generate_answers_async
      ⟨true, Except.ok (),
        [⟨none, Except.error [98, 111, 111, 109]⟩,
         ⟨none, Except.ok ⟨[97], none, [], Pipeline.Meta.base 0⟩⟩],
        [], 0⟩).2.2.2 = Except.error [98, 111, 111, 109] ∧
    ((Tasks.generate_answers_async
      ⟨true, Except.ok (),
        [⟨none, Except.error [98, 111, 111, 109]⟩,
         ⟨none, Except.ok ⟨[97], none, [], Pipeline.Meta.base 0⟩⟩],
        [], 0⟩).1.getLast?).map (fun t => t.status) =
      some Tasks.JStatus.failure := by
  refine ⟨rfl, rfl, rfl, rfl⟩

/-- **C1** (amended).  During a batch-answer job, when the generation
call for question `i` raises and every earlier question succeeded, the
failure is *not* isolated: the exception escapes the loop and the task —
the job ends `FAILURE`, the RFP is marked failed, and exactly the `i`
earlier questions have `Answer` writes (the failing question and all its
siblings after it are never processed).  No error list is kept anywhere.
(The only per-question error capture in the code base is
`AnswerGenerator.batch_generate_answers`, which the batch task does not
use.) -/
theorem C1_batch_abort_amended (env : Tasks.BatchEnv) (i : Nat) (e : Str)
    (hrfp : env.rfpExists = true)
    (hinit : env.pipelineInit = Except.ok ())
    (hi : i < env.questions.length)
    (hfail : (env.questions.get ⟨i, hi⟩).outcome = Except.error e)
    (hpre : ∀ j (hj : j < i),
      ∃ r, (env.questions.get ⟨j, by omega⟩).outcome = Except.ok r) :
    (Tasks.generate_answers_async env).2.2.2 = Except.error e ∧
    (Tasks.generate_answers_async env).2.1 = some Tasks.RfpStatus.failed ∧
    ((Tasks.generate_answers_async env).1.getLast?).map (fun t => t.status) =
      some Tasks.JStatus.failure ∧
    (Tasks.generate_answers_async env).2.2.1.length = i := by
  have htot : ¬ env.questions.length = 0 := by omega
  have habort := Tasks.runQuestions_abort env.chunkDB env.now
    env.questions.length env.questions i hi e hfail hpre
  have herr : ∀ (t : Tasks.TS) (idx : Nat),
      (Tasks.runQuestions env.chunkDB env.now env.questions.length t idx
        env.questions).err = some e := fun t idx => (habort t idx).1
  have hlen : ∀ (t : Tasks.TS) (idx : Nat),
      (Tasks.runQuestions env.chunkDB env.now env.questions.length t idx
        env.questions).writes.length = i := fun t idx => (habort t idx).2
  simp only [Tasks.generate_answers_async]
  rw [if_neg (by simp [hrfp]), if_neg htot, hinit]
  simp only [herr]
  refine ⟨trivial, trivial, ?_, hlen _ _⟩
  rw [List.getLast?_concat]
  rfl

/-- Witness for `C1_batch_abort_amended`: the second question of a
two-question batch raises after the first succeeds; one answer write
happened, the job is `FAILURE`. -/
theorem C1_batch_abort_amended_witness :
    (Tasks.generate_answers_async
      ⟨true, Except.ok (),
        [⟨none, Except.ok ⟨[97], none, [], Pipeline.Meta.base 0⟩⟩,
         ⟨none, Except.error [98, 111, 111, 109]⟩],
        [], 0⟩).2.2.2 = Except.error [98, 111, 111, 109] ∧
    (Tasks.generate_answers_async
      ⟨true, Except.ok (),
        [⟨none, Except.ok ⟨[97], none, [], Pipeline.Meta.base 0⟩⟩,
         ⟨none, Except.error [98, 111, 111, 109]⟩],
        [], 0⟩).2.2.1.length = 1 :=
  have h := C1_batch_abort_amended
    ⟨true, Except.ok (),
      [⟨none, Except.ok ⟨[97], none, [], Pipeline.Meta.base 0⟩⟩,
       ⟨none, Except.error [98, 111, 111, 109]⟩],
      [], 0⟩ 1 [98, 111, 111, 109] rfl rfl (by decide) rfl
    (by
      intro j hj
      cases j with
      | zero => exact ⟨⟨[97], none, [], Pipeline.Meta.base 0⟩, rfl⟩
      | succ n => omega)
  ⟨h.1, h.2.2.2⟩

/-- **C10** (counterexample).  A question with an existing `Answer` whose
provenance is one chunk, re-answered by a batch run whose fresh result
has an *empty* source-chunk list: the stored provenance is left as the
old chunk set rather than being replaced by the (empty) chunk set of the
new result — `answer.source_chunks.set(...)` only runs when the new
result has at least one source chunk. -/
theorem C10_empty_result_keeps_old_provenance :
    (Tasks.answerStep [] 0
      (some ⟨[97], none, [⟨[99], [100], 1⟩], false, 0,
        Pipeline.Meta.base 0, 5⟩)
      ⟨[98], none, [], Pipeline.Meta.base 1⟩).1.source_chunks =
      [⟨[99], [100], 1⟩] := by
  rfl

/-- **C10** (amended).  When a question already has a persisted `Answer`,
the batch task leaves its text, confidence, metadata, cached flag,
regeneration counter and timestamp unchanged (the freshly generated
values are discarded), and it replaces the answer's source-chunk set with
the stored chunks matching the new result's chunk ids — but only when the
new result has at least one source chunk; a result with no source chunks
leaves the old provenance in place. -/
theorem C10_existing_answer_update_amended
    (chunkDB : List Pipeline.DBChunk) (now : Nat)
    (a0 : Pipeline.AnswerRec) (result : Pipeline.GenResult) :
    (Tasks.answerStep chunkDB now (some a0) result).2 = false ∧
    (Tasks.answerStep chunkDB now (some a0) result).1 =
      { a0 with source_chunks :=
          if result.source_chunks = [] then a0.source_chunks
          else chunkDB.filter (fun c =>
            decide (c.chromadb_id ∈ result.source_chunks.map
              (fun s => s.sid))) } := by
  by_cases h : result.source_chunks = []
  · simp [Tasks.answerStep, h]
  · simp [Tasks.answerStep, h]
